import Mathlib

/-!
Shallow embedding of the incremental synchronization engine of
supernote-markdown (src/main.py) and proofs about its claims.

Modelling conventions:
* Python dicts (the sync state, the folder cache) and the local filesystem
  are association lists with explicit find/set/erase operations.
* Filesystem paths are lists of segments (os.path.join appends a segment);
  the mirror root is the list head: the notes tree lives under "notes",
  the run temp directory under "tmp", the quarantine under ".deleted",
  the derived-artifact roots under "images" and "titles".
* External collaborators (the Drive service, hashlib, the clock) are
  parameters: an Env record supplies the parent lookup, the remote content,
  the content hash (none models the I/O exception path of get_content_hash,
  which the source turns into a None return), and the md5-of-string used by
  get_file_hash; timestamps are passed in as strings.
* Python recursion depth is an explicit fuel argument; exhausting it models
  RecursionError, which get_folder_path catches in its except clause.
-/

namespace SupernoteSync

/-- Lookup in an association list (Python: d.get(k) / d[k]). -/
def findKey {κ α : Type} [DecidableEq κ] (k : κ) : List (κ × α) → Option α
  | [] => none
  | kv :: t => if kv.1 = k then some kv.2 else findKey k t

/-- Insert or replace in an association list (Python: d[k] = v). -/
def setKey {κ α : Type} [DecidableEq κ] (k : κ) (v : α) : List (κ × α) → List (κ × α)
  | [] => [(k, v)]
  | kv :: t => if kv.1 = k then (k, v) :: t else kv :: setKey k v t

/-- Remove a key from an association list (Python: del d[k]). -/
def eraseKey {κ α : Type} [DecidableEq κ] (k : κ) : List (κ × α) → List (κ × α)
  | [] => []
  | kv :: t => if kv.1 = k then t else kv :: eraseKey k t

/-- The keys of an association list. -/
def keys {κ α : Type} : List (κ × α) → List κ := List.map Prod.fst

/-- File content: a byte list. -/
abbrev Content := List Nat

/-- A filesystem path, as the list of its segments relative to the target
directory (os.path.join appends a segment). -/
abbrev Path := List String

/-- The local filesystem under the target directory: path to content. -/
abbrev FS := List (Path × Content)

/-- The per-run folder cache: folder identifier to resolved folder path. -/
abbrev Cache := List (String × Path)

/-- One persisted sync record (a value of the sync_state.json mapping).
content_hash distinguishes the three JSON shapes the key can take:
none means the key is absent from the record dict, some none means the key
is present with value null, some (some h) means a stored hash string. -/
structure SyncRecord where
  hash : String
  content_hash : Option (Option String)
  name : String
  size : Nat
  modified_time : String
  folder_path : Path
  relative_path : Path
  last_synced : String
deriving DecidableEq

instance : Inhabited SyncRecord :=
  ⟨{ hash := "", content_hash := none, name := "", size := 0,
     modified_time := "", folder_path := [], relative_path := [],
     last_synced := "" }⟩

/-- The persisted sync state: remote identifier to sync record. -/
abbrev SyncState := List (String × SyncRecord)

/-- A remote listing entry, as consumed by sync_notes and process_note_file.
size is optional: sync_notes checks that the "size" key is present. -/
structure DriveFile where
  id : String
  name : String
  size : Option Nat
  modifiedTime : String
  parents : List String
deriving DecidableEq

/-- The external collaborators of the engine.
lookupFolder models service.files().get(fileId, fields="name, parents")
(none models the raised exception); content models the bytes that
service.files().get_media delivers for an identifier; contentHash models
hashlib.md5 over a file body, with none modelling the exception path of
get_content_hash (the source catches it and returns None); hashString
models hashlib.md5(s.encode()).hexdigest(). -/
structure Env where
  lookupFolder : String → Option (String × List String)
  content : String → Content
  contentHash : Content → Option String
  hashString : String → String

/-- get_file_hash: md5 over "fileId_modifiedTime_size". -/
def get_file_hash (env : Env) (file_id modified_time : String) (size : Nat) : String :=
  env.hashString (file_id ++ "_" ++ modified_time ++ "_" ++ toString size)

/-- get_content_hash: md5 of the file body at a path; the source returns
None when opening or reading the file raises. A path absent from the
filesystem is such an exception, and Env.contentHash may also report a read
failure on an existing file. -/
def get_content_hash (env : Env) (fs : FS) (file_path : Path) : Option String :=
  match findKey file_path fs with
  | none => none
  | some c => env.contentHash c

/-- get_folder_path: resolves the folder path of a file from its parent
list, consulting and filling the per-run folder cache.  The fuel argument
is the remaining Python recursion depth: at fuel 0 the recursive call
raises RecursionError, which the except clause of the current frame
catches, caching "" for the parent and returning "" — exactly as it
handles a failed service lookup.  The third component of the result counts
the parent-lookup service calls issued. -/
def get_folder_path (env : Env) : Nat → List String → Cache → Path × Cache × Nat
  | fuel, file_parents, folder_cache =>
    match file_parents with
    | [] => ([], folder_cache, 0)
    | parent_id :: _ =>
      match findKey parent_id folder_cache with
      | some p => (p, folder_cache, 0)
      | none =>
        match env.lookupFolder parent_id with
        | none => ([], setKey parent_id [] folder_cache, 1)
        | some (parent_name, parent_parents) =>
          match fuel with
          | 0 => ([], setKey parent_id [] folder_cache, 1)
          | fuel' + 1 =>
            let r := get_folder_path env fuel' parent_parents folder_cache
            let full_path := if r.1.isEmpty then [parent_name] else r.1 ++ [parent_name]
            (full_path, setKey parent_id full_path r.2.1, r.2.2 + 1)

/-- The note output path of an entry: notes_output_dir joined with the
folder path (when nonempty) and the file name. -/
def noteOutputPath (folder_path : Path) (note_file_name : String) : Path :=
  if folder_path.isEmpty then ["notes", note_file_name]
  else ["notes"] ++ folder_path ++ [note_file_name]

/-- should_download_file: the change detector, first match wins. -/
def should_download_file (env : Env) (fs : FS) (file_id : String)
    (file_size : Nat) (file_modified_time : String) (sync_state : SyncState)
    (folder_path : Path) (note_file_name : String) : Bool × String :=
  let note_output_path := noteOutputPath folder_path note_file_name
  if (findKey note_output_path fs).isNone then
    (true, "File does not exist locally")
  else
    match findKey file_id sync_state with
    | none => (true, "No sync state found")
    | some sync_info =>
      if sync_info.modified_time ≠ file_modified_time ∨ sync_info.size ≠ file_size then
        (true, "File modified on Google Drive")
      else
        match sync_info.content_hash with
        | some stored =>
          let local_content_hash := get_content_hash env fs note_output_path
          if local_content_hash ≠ stored then (true, "Local file content differs")
          else (false, "File is up to date")
        | none => (false, "File is up to date")

/-- cleanup_extractions_for_file: the downstream invalidator.  Removes the
derived-artifact directories (under "images" and "titles") addressed by the
relative path with its ".note" extension stripped. -/
def cleanup_extractions_for_file (relative_path : Path) (fs : FS) : FS :=
  let note_name := (relative_path.getLastD "").replace ".note" ""
  let folder_path := relative_path.dropLast
  let image_extraction_dir := ["images"] ++ folder_path ++ [note_name]
  let title_extraction_dir := ["titles"] ++ folder_path ++ [note_name]
  (fs.filter (fun pc => !(image_extraction_dir.isPrefixOf pc.1))).filter
    (fun pc => !(title_extraction_dir.isPrefixOf pc.1))

/-- The quarantine path of a file: its basename prefixed with the
timestamp, under the ".deleted" directory. -/
def quarantinePath (timestamp : String) (file_path : Path) : Path :=
  [".deleted", timestamp ++ "_" ++ file_path.getLastD ""]

/-- move_to_deleted: quarantine a file under ".deleted" with a
timestamp-prefixed name; a no-op when the source path does not exist.
Also returns the performed move, for stating claims about it. -/
def move_to_deleted (timestamp : String) (file_path : Path) (fs : FS) :
    FS × List (Path × Path) :=
  let deleted_path := quarantinePath timestamp file_path
  match findKey file_path fs with
  | some c => (setKey deleted_path c (eraseKey file_path fs), [(file_path, deleted_path)])
  | none => (fs, [])

/-- Result of the deletion reconciler. -/
structure CleanupOut where
  sync : SyncState
  fs : FS
  invalidated : List Path
  moved : List (Path × Path)
  count : Nat
deriving DecidableEq

/-- The loop body of cleanup_deleted_files over the set difference.  The
none branch of the record lookup is unreachable for dict-sound inputs
(the iterated identifiers come from the keys of the state). -/
def cleanupLoop (timestamp : String) : List String → SyncState → FS →
    List Path → List (Path × Path) → SyncState × FS × List Path × List (Path × Path)
  | [], s, fs, inv, mv => (s, fs, inv, mv)
  | deleted_file_id :: rest, s, fs, inv, mv =>
    match findKey deleted_file_id s with
    | none => cleanupLoop timestamp rest s fs inv mv
    | some deleted_file_info =>
      let relative_path := deleted_file_info.relative_path
      let note_path := ["notes"] ++ relative_path
      let r := move_to_deleted timestamp note_path fs
      let fs2 := cleanup_extractions_for_file relative_path r.1
      cleanupLoop timestamp rest (eraseKey deleted_file_id s) fs2
        (inv ++ [relative_path]) (mv ++ r.2)

/-- cleanup_deleted_files: the deletion reconciler.  The identifiers in the
state but not observed are quarantined, invalidated and removed; the count
of that set difference is returned. -/
def cleanup_deleted_files (timestamp : String) (sync_state : SyncState)
    (current_files : List String) (fs : FS) : CleanupOut :=
  let deleted_files := (keys sync_state).filter (fun k => !(current_files.contains k))
  let r := cleanupLoop timestamp deleted_files sync_state fs [] []
  { sync := r.1, fs := r.2.1, invalidated := r.2.2.1, moved := r.2.2.2,
    count := deleted_files.length }

/-- The mutable state threaded through one run. -/
structure RunState where
  sync : SyncState
  current : List String
  fs : FS
  cache : Cache
  invalidated : List Path
deriving DecidableEq

/-- The relative path of an entry (folder path joined with the name). -/
def relPathOf (folder_path : Path) (note_file_name : String) : Path :=
  if folder_path.isEmpty then [note_file_name] else folder_path ++ [note_file_name]

/-- The record the skip branch of process_note_file writes: metadata
refreshed from the listing, content hash preserved (null when none was
recorded), last_synced preserved (defaulting to the clock only when no
record existed). -/
def skipRecord (env : Env) (now : String) (file : DriveFile)
    (folder_path : Path) (existing : Option SyncRecord) : SyncRecord :=
  { hash := get_file_hash env file.id file.modifiedTime (file.size.getD 0),
    content_hash := some (match existing with
      | some r => (match r.content_hash with | some v => v | none => none)
      | none => none),
    name := file.name, size := file.size.getD 0,
    modified_time := file.modifiedTime,
    folder_path := folder_path,
    relative_path := relPathOf folder_path file.name,
    last_synced := match existing with
      | some r => r.last_synced
      | none => now }

/-- The record the download branch of process_note_file writes, given the
filesystem right after the staged copy. -/
def downloadRecord (env : Env) (now : String) (file : DriveFile)
    (folder_path : Path) (fs3 : FS) : SyncRecord :=
  { hash := get_file_hash env file.id file.modifiedTime (file.size.getD 0),
    content_hash := some (get_content_hash env fs3
      (noteOutputPath folder_path file.name)),
    name := file.name, size := file.size.getD 0,
    modified_time := file.modifiedTime, folder_path := folder_path,
    relative_path := relPathOf folder_path file.name,
    last_synced := now }

/-- process_note_file: one entry of the enumeration.  Downloads succeed in
this run-level model (the fetched bytes are Env.content); the failure modes
of the transfer are modelled separately by download_and_place.  The boolean
result reports whether the entry was downloaded (True) or skipped (False).
save_sync_state is invoked at the end of both branches; at this level the
persisted state is the sync field, and the byte-level save is modelled
separately by save_sync_state_trace. -/
def process_note_file (env : Env) (fuel : Nat) (now : String) (file : DriveFile)
    (rs : RunState) : RunState × Bool :=
  let file_id := file.id
  let file_size := (file.size).getD 0
  let modified_time := file.modifiedTime
  let note_file_name := file.name
  let file_parents := file.parents
  let current_files := if rs.current.contains file_id then rs.current
    else rs.current ++ [file_id]
  let g := get_folder_path env fuel file_parents rs.cache
  let folder_path := g.1
  let relative_path := relPathOf folder_path note_file_name
  let d := should_download_file env rs.fs file_id file_size modified_time
    rs.sync folder_path note_file_name
  if !d.1 then
    let existing_info := findKey file_id rs.sync
    let newRec : SyncRecord :=
      { hash := get_file_hash env file_id modified_time file_size,
        content_hash := some (match existing_info with
          | some r => (match r.content_hash with | some v => v | none => none)
          | none => none),
        name := note_file_name, size := file_size, modified_time := modified_time,
        folder_path := folder_path, relative_path := relative_path,
        last_synced := match existing_info with
          | some r => r.last_synced
          | none => now }
    ({ rs with sync := setKey file_id newRec rs.sync, current := current_files,
               cache := g.2.1 }, false)
  else
    let cleaned :=
      if (findKey file_id rs.sync).isSome then
        (cleanup_extractions_for_file relative_path rs.fs,
         rs.invalidated ++ [relative_path])
      else (rs.fs, rs.invalidated)
    let note_temp_path : Path := ["tmp", file_id]
    let fetched := env.content file_id
    let fs2 := setKey note_temp_path fetched cleaned.1
    let note_output_path := noteOutputPath folder_path note_file_name
    let fs3 := setKey note_output_path fetched fs2
    let content_hash := get_content_hash env fs3 note_output_path
    let newRec : SyncRecord :=
      { hash := get_file_hash env file_id modified_time file_size,
        content_hash := some content_hash,
        name := note_file_name, size := file_size, modified_time := modified_time,
        folder_path := folder_path, relative_path := relative_path,
        last_synced := now }
    ({ sync := setKey file_id newRec rs.sync, current := current_files,
       fs := fs3, cache := g.2.1, invalidated := cleaned.2 }, true)

/-- str.endswith(suffix), evaluated over the character data (the builtin
String.endsWith is implemented by well-founded recursion and does not
reduce inside the kernel). -/
def endsWithSuffix (s suffix : String) : Bool :=
  suffix.data.isSuffixOf s.data

/-- The per-entry filter of sync_notes: the listing entry carries a size
and its name ends in ".note". -/
def goodFile (file : DriveFile) : Bool :=
  file.size.isSome && endsWithSuffix file.name ".note"

/-- The loop of sync_notes over the (flattened, paginated) listing.
Returns the final run state and the processed/skipped counters. -/
def processEntries (env : Env) (fuel : Nat) (now : String) :
    List DriveFile → RunState → RunState × Nat × Nat
  | [], rs => (rs, 0, 0)
  | file :: rest, rs =>
    if goodFile file then
      let p := process_note_file env fuel now file rs
      let r := processEntries env fuel now rest p.1
      if p.2 then (r.1, r.2.1 + 1, r.2.2) else (r.1, r.2.1, r.2.2 + 1)
    else processEntries env fuel now rest rs

/-- Result of one whole run of sync_notes. -/
structure SyncResult where
  sync : SyncState
  fs : FS
  current : List String
  invalidated : List Path
  moved : List (Path × Path)
  processed : Nat
  skipped : Nat
  deleted : Nat
deriving DecidableEq

/-- sync_notes: one run over an already loaded state and a flattened
listing.  Enumeration succeeds (the claims below all presuppose a run whose
enumeration completes), every fetch delivers Env.content, and the clock is
the constant now for the run. -/
def sync_notes (env : Env) (fuel : Nat) (now : String) (files : List DriveFile)
    (state0 : SyncState) (fs0 : FS) : SyncResult :=
  let rs0 : RunState := { sync := state0, current := [], fs := fs0, cache := [],
                          invalidated := [] }
  let r := processEntries env fuel now files rs0
  let c := cleanup_deleted_files now r.1.sync r.1.current r.1.fs
  { sync := c.sync, fs := c.fs, current := r.1.current,
    invalidated := r.1.invalidated ++ c.invalidated, moved := c.moved,
    processed := r.2.1, skipped := r.2.2, deleted := c.count }

/-- JSON text of one sync record, in the field order both branches of
process_note_file write (whitespace of indent=2 elided; field strings are
assumed free of characters needing JSON escapes). -/
def serializeRecord (r : SyncRecord) : String :=
  "\x7b\"hash\": \"" ++ r.hash ++ "\", " ++
  (match r.content_hash with
   | none => ""
   | some none => "\"content_hash\": null, "
   | some (some h) => "\"content_hash\": \"" ++ h ++ "\", ") ++
  "\"name\": \"" ++ r.name ++ "\", " ++
  "\"size\": " ++ toString r.size ++ ", " ++
  "\"modified_time\": \"" ++ r.modified_time ++ "\", " ++
  "\"folder_path\": \"" ++ String.intercalate "/" r.folder_path ++ "\", " ++
  "\"relative_path\": \"" ++ String.intercalate "/" r.relative_path ++ "\", " ++
  "\"last_synced\": \"" ++ r.last_synced ++ "\"\x7d"

/-- JSON text of the sync state, the content json.dump writes. -/
def serializeState (st : SyncState) : String :=
  "\x7b" ++ String.intercalate ", "
    (st.map (fun kv => "\"" ++ kv.1 ++ "\": " ++ serializeRecord kv.2)) ++ "\x7d"

/-- save_sync_state as the sequence of contents observable in
sync_state.json while the save runs: open(file, "w") truncates the file to
empty, then json.dump writes the serialization; an interruption can stop
the write after any prefix.  Contents are char lists; the first element is
the truncated file, the last the completed save. -/
def save_sync_state_trace (sync_state : SyncState) : List (List Char) :=
  (List.range ((serializeState sync_state).data.length + 1)).map
    (fun k => (serializeState sync_state).data.take k)

/-- load_sync_state.  The file argument is none when sync_state.json does
not exist.  jsonLoad models json.load: none models the raised
JSONDecodeError.  The source wraps json.load in no try/except, so that
error propagates to the caller, modelled as Except.error. -/
def load_sync_state (jsonLoad : String → Option SyncState)
    (file : Option String) : Except String SyncState :=
  match file with
  | none => Except.ok []
  | some content =>
    match jsonLoad content with
    | some st => Except.ok st
    | none => Except.error "json.decoder.JSONDecodeError"

/-- A concrete model of json.load for witnesses: it accepts the empty
object and rejects everything else as corrupt. -/
def jsonLoadModel (s : String) : Option SyncState :=
  if s = "\x7b\x7d" then some [] else none

/-- Concatenation of transfer chunks. -/
def joinChunks (chunks : List Content) : Content :=
  chunks.foldr (fun c acc => c ++ acc) []

/-- download_file plus the staging copy of process_note_file, as a trace.
download_file opens the temp path with "wb" (truncating it) and appends the
fetched chunks one by one; the first component lists the filesystem after
each of those writes.  When ok is false the transfer loop of
MediaIoBaseDownload raises after delivering the given chunks, shutil.copy2
never runs, and no final filesystem is produced (second component none);
when ok is true the staged file is copied onto the final path. -/
def download_and_place (chunks : List Content) (ok : Bool)
    (note_temp_path note_output_path : Path) (fs : FS) : List FS × Option FS :=
  let tempStates := (List.range (chunks.length + 1)).map
    (fun k => setKey note_temp_path (joinChunks (chunks.take k)) fs)
  if ok then
    let staged := setKey note_temp_path (joinChunks chunks) fs
    let final := setKey note_output_path (joinChunks chunks) staged
    (tempStates ++ [final], some final)
  else (tempStates, none)

/-- The identifiers of the entries that pass the sync_notes filter. -/
def goodIds (files : List DriveFile) : List String :=
  (files.filter goodFile).map DriveFile.id

/-- The relative paths of the filtered entries, with the folder cache
evolving exactly as it does through processEntries. -/
def relPathsFrom (env : Env) (fuel : Nat) : List DriveFile → Cache → List Path
  | [], _ => []
  | file :: rest, cache =>
    if goodFile file then
      let g := get_folder_path env fuel file.parents cache
      relPathOf g.1 file.name :: relPathsFrom env fuel rest g.2.1
    else relPathsFrom env fuel rest cache

/-- The per-entry conditions under which a second pass over the same
listing is a pure skip: recursively over the listing, with the folder
cache evolving exactly as processEntries evolves it, the state S holds for
each filtered entry a record matching the entry metadata and carrying the
hash of the local file, which exists in F at the entry resolved path. -/
def secondRunReady (env : Env) (fuel : Nat) (S : SyncState) (F : FS) :
    List DriveFile → Cache → Prop
  | [], _ => True
  | file :: rest, cache =>
    if goodFile file then
      (∃ r h c,
        findKey file.id S = some r ∧
        r.modified_time = file.modifiedTime ∧
        r.size = file.size.getD 0 ∧
        r.content_hash = some (some h) ∧
        r.folder_path = (get_folder_path env fuel file.parents cache).1 ∧
        r.relative_path =
          relPathOf (get_folder_path env fuel file.parents cache).1 file.name ∧
        r.hash = get_file_hash env file.id file.modifiedTime (file.size.getD 0) ∧
        r.name = file.name ∧
        findKey (noteOutputPath (get_folder_path env fuel file.parents cache).1
          file.name) F = some c ∧
        env.contentHash c = some h) ∧
      secondRunReady env fuel S F rest
        (get_folder_path env fuel file.parents cache).2.1
    else secondRunReady env fuel S F rest cache

/-- A remote hierarchy whose parent chain is the two-cycle A -> B -> A. -/
def cycleEnv : Env :=
  { lookupFolder := fun pid =>
      if pid = "A" then some ("A", ["B"])
      else if pid = "B" then some ("B", ["A"]) else none,
    content := fun _ => [], contentHash := fun _ => none,
    hashString := fun s => s }

/-- A concrete environment for witnesses: a flat hierarchy, one-byte
remote contents, and hashing that always succeeds. -/
def testEnv : Env :=
  { lookupFolder := fun _ => none, content := fun _ => [7],
    contentHash := fun c => some (toString c.length),
    hashString := fun s => s }

/-- A concrete environment whose content hashing always fails (the
exception path of get_content_hash). -/
def failHashEnv : Env :=
  { lookupFolder := fun _ => none, content := fun _ => [7],
    contentHash := fun _ => none, hashString := fun s => s }

/-- A concrete sync record for witnesses and counterexamples. -/
def sampleRecord : SyncRecord :=
  { hash := "h", content_hash := some (some "c"), name := "a.note", size := 1,
    modified_time := "T0", folder_path := [], relative_path := ["a.note"],
    last_synced := "S0" }

/-- A concrete listing entry for witnesses. -/
def sampleFile : DriveFile :=
  { id := "id1", name := "a.note", size := some 1, modifiedTime := "T0",
    parents := [] }

/-- The record a state holds for an identifier, defaulting like
dict.get would before a KeyError-free access. -/
def recOf (sync_state : SyncState) (id : String) : SyncRecord :=
  (findKey id sync_state).getD default

/-- A remote hierarchy with the acyclic chain A -> B -> root used as a
witness input: the folder "bId" is named "B" with parent "aId", and "aId"
is named "A" at the root. -/
def chainEnv : Env :=
  { lookupFolder := fun pid =>
      if pid = "bId" then some ("B", ["aId"])
      else if pid = "aId" then some ("A", []) else none,
    content := fun _ => [7], contentHash := fun c => some (toString c.length),
    hashString := fun s => s }

/-! ### Association-list lemmas -/

theorem findKey_setKey_self {κ α : Type} [DecidableEq κ] (k : κ) (v : α)
    (l : List (κ × α)) : findKey k (setKey k v l) = some v := by
  induction l with
  | nil => simp [setKey, findKey]
  | cons kv t ih =>
    by_cases h : kv.1 = k
    · simp [setKey, h, findKey]
    · simp [setKey, h, findKey, ih]

theorem findKey_setKey_ne {κ α : Type} [DecidableEq κ] {k k' : κ} (v : α)
    (l : List (κ × α)) (h : k' ≠ k) :
    findKey k' (setKey k v l) = findKey k' l := by
  induction l with
  | nil => simp [setKey, findKey, Ne.symm h]
  | cons kv t ih =>
    by_cases hk : kv.1 = k
    · subst hk
      simp [setKey, findKey, Ne.symm h]
    · simp [setKey, hk, findKey, ih]

theorem setKey_of_findKey_eq {κ α : Type} [DecidableEq κ] {k : κ} {v : α}
    {l : List (κ × α)} (h : findKey k l = some v) : setKey k v l = l := by
  induction l with
  | nil => simp [findKey] at h
  | cons kv t ih =>
    by_cases hk : kv.1 = k
    · simp only [findKey, if_pos hk] at h
      have hv : kv.2 = v := by injection h
      simp only [setKey, if_pos hk]
      rw [← hk, ← hv]
    · simp only [findKey, if_neg hk] at h
      simp [setKey, hk, ih h]

theorem findKey_eraseKey_ne {κ α : Type} [DecidableEq κ] {k k' : κ}
    (l : List (κ × α)) (h : k' ≠ k) :
    findKey k' (eraseKey k l) = findKey k' l := by
  induction l with
  | nil => simp [eraseKey]
  | cons kv t ih =>
    by_cases hk : kv.1 = k
    · subst hk
      simp [eraseKey, findKey, Ne.symm h]
    · simp [eraseKey, hk, findKey, ih]

theorem mem_keys_iff_findKey_isSome {κ α : Type} [DecidableEq κ] (k : κ)
    (l : List (κ × α)) : k ∈ keys l ↔ (findKey k l).isSome := by
  induction l with
  | nil => simp [keys, findKey]
  | cons kv t ih =>
    by_cases hk : kv.1 = k
    · simp [keys, findKey, hk]
    · simp only [keys, List.map_cons, List.mem_cons, findKey, if_neg hk]
      constructor
      · rintro (h | h)
        · exact absurd h.symm hk
        · exact (ih.mp (by simpa [keys] using h))
      · intro h
        exact Or.inr (by simpa [keys] using ih.mpr h)

theorem findKey_eraseKey_self {κ α : Type} [DecidableEq κ] (k : κ)
    (l : List (κ × α)) (hnd : (keys l).Nodup) :
    findKey k (eraseKey k l) = none := by
  induction l with
  | nil => simp [eraseKey, findKey]
  | cons kv t ih =>
    simp only [keys, List.map_cons, List.nodup_cons] at hnd
    by_cases hk : kv.1 = k
    · subst hk
      simp only [eraseKey, if_pos rfl]
      cases hf : findKey kv.1 t with
      | none => exact hf
      | some v =>
        exact absurd ((mem_keys_iff_findKey_isSome kv.1 t).mpr (by simp [hf]))
          hnd.1
    · simp only [eraseKey, if_neg hk, findKey, if_neg hk]
      exact ih hnd.2

theorem keys_setKey_nodup {κ α : Type} [DecidableEq κ] (k : κ) (v : α)
    (l : List (κ × α)) (hnd : (keys l).Nodup) :
    (keys (setKey k v l)).Nodup := by
  induction l with
  | nil => simp [setKey, keys]
  | cons kv t ih =>
    simp only [keys, List.map_cons, List.nodup_cons] at hnd
    by_cases hk : kv.1 = k
    · subst hk
      simpa [setKey, keys] using hnd
    · simp only [setKey, if_neg hk, keys, List.map_cons, List.nodup_cons]
      refine ⟨fun hmem => ?_, ih hnd.2⟩
      have : kv.1 ∈ keys (setKey k v t) := by simpa [keys] using hmem
      rw [mem_keys_iff_findKey_isSome, findKey_setKey_ne v t hk] at this
      exact hnd.1 ((mem_keys_iff_findKey_isSome kv.1 t).mpr this)

theorem keys_eraseKey_nodup {κ α : Type} [DecidableEq κ] (k : κ)
    (l : List (κ × α)) (hnd : (keys l).Nodup) :
    (keys (eraseKey k l)).Nodup := by
  induction l with
  | nil => simp [eraseKey, keys]
  | cons kv t ih =>
    simp only [keys, List.map_cons, List.nodup_cons] at hnd
    by_cases hk : kv.1 = k
    · simpa [eraseKey, hk, keys] using hnd.2
    · simp only [eraseKey, if_neg hk, keys, List.map_cons, List.nodup_cons]
      refine ⟨fun hmem => ?_, ih hnd.2⟩
      have : kv.1 ∈ keys (eraseKey k t) := by simpa [keys] using hmem
      by_cases hkk : kv.1 = k
      · exact hk hkk
      · rw [mem_keys_iff_findKey_isSome, findKey_eraseKey_ne t hkk] at this
        exact hnd.1 ((mem_keys_iff_findKey_isSome kv.1 t).mpr this)

/-! ### Resolver unfolding lemmas -/

theorem get_folder_path_nil (env : Env) (fuel : Nat) (cache : Cache) :
    get_folder_path env fuel [] cache = ([], cache, 0) := by
  conv_lhs => rw [get_folder_path]

theorem get_folder_path_hit (env : Env) (fuel : Nat) (pid : String)
    (rest : List String) (cache : Cache) (p : Path)
    (hc : findKey pid cache = some p) :
    get_folder_path env fuel (pid :: rest) cache = (p, cache, 0) := by
  conv_lhs => rw [get_folder_path]
  rw [hc]

theorem get_folder_path_step (env : Env) (fuel : Nat) (pid : String)
    (rest : List String) (cache : Cache) (pname : String)
    (pparents : List String) (hc : findKey pid cache = none)
    (hl : env.lookupFolder pid = some (pname, pparents)) :
    get_folder_path env (fuel + 1) (pid :: rest) cache =
      ((if (get_folder_path env fuel pparents cache).1.isEmpty then [pname]
        else (get_folder_path env fuel pparents cache).1 ++ [pname]),
       setKey pid
         (if (get_folder_path env fuel pparents cache).1.isEmpty then [pname]
          else (get_folder_path env fuel pparents cache).1 ++ [pname])
         (get_folder_path env fuel pparents cache).2.1,
       (get_folder_path env fuel pparents cache).2.2 + 1) := by
  conv_lhs => rw [get_folder_path]
  rw [hc, hl]

/-! ### Change-detector lemmas -/

theorem should_download_missing (env : Env) (fs : FS) (file_id : String)
    (file_size : Nat) (mtime : String) (st : SyncState) (folder : Path)
    (name : String) (hfile : findKey (noteOutputPath folder name) fs = none) :
    should_download_file env fs file_id file_size mtime st folder name =
      (true, "File does not exist locally") := by
  simp [should_download_file, hfile]

theorem should_download_no_stored_hash (env : Env) (fs : FS) (file_id : String)
    (file_size : Nat) (mtime : String) (st : SyncState) (folder : Path)
    (name : String) (r : SyncRecord) (c : Content)
    (hfile : findKey (noteOutputPath folder name) fs = some c)
    (hrec : findKey file_id st = some r)
    (hmt : r.modified_time = mtime) (hsz : r.size = file_size)
    (hch : r.content_hash = none) :
    should_download_file env fs file_id file_size mtime st folder name =
      (false, "File is up to date") := by
  simp [should_download_file, hfile, hrec, hmt, hsz, hch]

theorem should_download_null_hash (env : Env) (fs : FS) (file_id : String)
    (file_size : Nat) (mtime : String) (st : SyncState) (folder : Path)
    (name : String) (r : SyncRecord) (c : Content) (h : String)
    (hfile : findKey (noteOutputPath folder name) fs = some c)
    (hrec : findKey file_id st = some r)
    (hmt : r.modified_time = mtime) (hsz : r.size = file_size)
    (hch : r.content_hash = some none) (hh : env.contentHash c = some h) :
    should_download_file env fs file_id file_size mtime st folder name =
      (true, "Local file content differs") := by
  simp [should_download_file, hfile, hrec, hmt, hsz, hch, get_content_hash, hh]

theorem get_content_hash_setKey_self (env : Env) (fs : FS) (p : Path)
    (c : Content) : get_content_hash env (setKey p c fs) p = env.contentHash c := by
  simp [get_content_hash, findKey_setKey_self]

/-! ### process_note_file branch lemmas -/

theorem process_note_file_skip_eq (env : Env) (fuel : Nat) (now reason : String)
    (file : DriveFile) (rs : RunState) (fp : Path) (cache2 : Cache) (n : Nat)
    (hg : get_folder_path env fuel file.parents rs.cache = (fp, cache2, n))
    (hd : should_download_file env rs.fs file.id (file.size.getD 0)
      file.modifiedTime rs.sync fp file.name = (false, reason)) :
    process_note_file env fuel now file rs =
      ({ rs with
          sync := setKey file.id
            (skipRecord env now file fp (findKey file.id rs.sync)) rs.sync,
          current := if rs.current.contains file.id then rs.current
            else rs.current ++ [file.id],
          cache := cache2 }, false) := by
  simp only [process_note_file, hg, hd]
  rfl

theorem process_note_file_download_eq (env : Env) (fuel : Nat) (now reason : String)
    (file : DriveFile) (rs : RunState) (fp : Path) (cache2 : Cache) (n : Nat)
    (hg : get_folder_path env fuel file.parents rs.cache = (fp, cache2, n))
    (hd : should_download_file env rs.fs file.id (file.size.getD 0)
      file.modifiedTime rs.sync fp file.name = (true, reason)) :
    process_note_file env fuel now file rs =
      (let cleaned := if (findKey file.id rs.sync).isSome
         then (cleanup_extractions_for_file (relPathOf fp file.name) rs.fs,
               rs.invalidated ++ [relPathOf fp file.name])
         else (rs.fs, rs.invalidated)
       let fs3 := setKey (noteOutputPath fp file.name) (env.content file.id)
         (setKey ["tmp", file.id] (env.content file.id) cleaned.1)
       ({ sync := setKey file.id
            (downloadRecord env now file fp fs3) rs.sync,
          current := if rs.current.contains file.id then rs.current
            else rs.current ++ [file.id],
          fs := fs3, cache := cache2, invalidated := cleaned.2 }, true)) := by
  simp only [process_note_file, hg, hd]
  rfl

/-! ### Claim C5 -/

/-- Claim C5: for every identifier whose local file exists at the resolved
path, whose prior record size and modified_time both equal the remote
metadata, and whose prior record holds no stored content hash, the change
detector returns false with the up-to-date reason — no download is
triggered. -/
theorem c5_up_to_date_skip (env : Env) (fs : FS) (file_id : String)
    (file_size : Nat) (mtime : String) (st : SyncState) (folder : Path)
    (name : String) (r : SyncRecord) (c : Content)
    (hfile : findKey (noteOutputPath folder name) fs = some c)
    (hrec : findKey file_id st = some r)
    (hmt : r.modified_time = mtime) (hsz : r.size = file_size)
    (hch : r.content_hash = none) :
    should_download_file env fs file_id file_size mtime st folder name =
      (false, "File is up to date") :=
  should_download_no_stored_hash env fs file_id file_size mtime st folder name
    r c hfile hrec hmt hsz hch

/-- Witness for C5 at a concrete input. -/
theorem c5_up_to_date_skip_witness :
    should_download_file testEnv [(["notes", "a.note"], [7])] "id1" 1 "T0"
      [("id1", { sampleRecord with content_hash := none })] [] "a.note" =
      (false, "File is up to date") :=
  c5_up_to_date_skip testEnv [(["notes", "a.note"], [7])] "id1" 1 "T0"
    [("id1", { sampleRecord with content_hash := none })] [] "a.note"
    { sampleRecord with content_hash := none } [7]
    (by decide) (by decide) rfl rfl rfl

/-! ### Claim C6 -/

/-- Claim C6: a prior record whose content_hash field is present but null
makes the change detector request a download with reason "Local file
content differs" whenever the local file exists, its metadata match, and
hashing the local file succeeds; moreover the skip branch persists exactly
such a null field when no content hash was recorded, and the download
branch persists a null field when hashing the downloaded file fails — so
the unchanged file is downloaded again on the next run. -/
theorem c6_null_hash_redownload :
    (∀ (env : Env) (fs : FS) (file_id : String) (file_size : Nat)
       (mtime : String) (st : SyncState) (folder : Path) (name : String)
       (r : SyncRecord) (c : Content) (h : String),
       findKey (noteOutputPath folder name) fs = some c →
       findKey file_id st = some r →
       r.modified_time = mtime → r.size = file_size →
       r.content_hash = some none → env.contentHash c = some h →
       should_download_file env fs file_id file_size mtime st folder name =
         (true, "Local file content differs")) ∧
    (∀ (env : Env) (fuel : Nat) (now : String) (file : DriveFile)
       (rs : RunState) (c : Content) (r : SyncRecord),
       findKey (noteOutputPath
         (get_folder_path env fuel file.parents rs.cache).1 file.name) rs.fs = some c →
       findKey file.id rs.sync = some r →
       r.modified_time = file.modifiedTime → r.size = file.size.getD 0 →
       r.content_hash = none →
       ∃ r2, findKey file.id (process_note_file env fuel now file rs).1.sync = some r2 ∧
         r2.content_hash = some none) ∧
    (∀ (env : Env) (fuel : Nat) (now : String) (file : DriveFile) (rs : RunState),
       findKey (noteOutputPath
         (get_folder_path env fuel file.parents rs.cache).1 file.name) rs.fs = none →
       env.contentHash (env.content file.id) = none →
       ∃ r2, findKey file.id (process_note_file env fuel now file rs).1.sync = some r2 ∧
         r2.content_hash = some none ∧
         (process_note_file env fuel now file rs).2 = true) := by
  refine ⟨?_, ?_, ?_⟩
  · intro env fs file_id file_size mtime st folder name r c h h1 h2 h3 h4 h5 h6
    exact should_download_null_hash env fs file_id file_size mtime st folder
      name r c h h1 h2 h3 h4 h5 h6
  · intro env fuel now file rs c r h1 h2 h3 h4 h5
    have hd := should_download_no_stored_hash env rs.fs file.id (file.size.getD 0)
      file.modifiedTime rs.sync (get_folder_path env fuel file.parents rs.cache).1
      file.name r c h1 h2 h3 h4 h5
    rw [process_note_file_skip_eq env fuel now "File is up to date" file rs
      (get_folder_path env fuel file.parents rs.cache).1
      (get_folder_path env fuel file.parents rs.cache).2.1
      (get_folder_path env fuel file.parents rs.cache).2.2 rfl hd]
    refine ⟨_, findKey_setKey_self _ _ _, ?_⟩
    simp [skipRecord, h2, h5]
  · intro env fuel now file rs h1 h2
    have hd := should_download_missing env rs.fs file.id (file.size.getD 0)
      file.modifiedTime rs.sync (get_folder_path env fuel file.parents rs.cache).1
      file.name h1
    rw [process_note_file_download_eq env fuel now "File does not exist locally"
      file rs (get_folder_path env fuel file.parents rs.cache).1
      (get_folder_path env fuel file.parents rs.cache).2.1
      (get_folder_path env fuel file.parents rs.cache).2.2 rfl hd]
    refine ⟨_, findKey_setKey_self _ _ _, ?_, rfl⟩
    simp [downloadRecord, get_content_hash_setKey_self, h2]

/-- Witness for C6: each of its three parts applied at a concrete input. -/
theorem c6_null_hash_redownload_witness :
    (should_download_file testEnv [(["notes", "a.note"], [7])] "id1" 1 "T0"
      [("id1", { sampleRecord with content_hash := some none })] [] "a.note" =
      (true, "Local file content differs")) ∧
    (∃ r2, findKey "id1" (process_note_file testEnv 9 "T9"
        { id := "id1", name := "a.note", size := some 1, modifiedTime := "T0",
          parents := [] }
        { sync := [("id1", { sampleRecord with content_hash := none })],
          current := [], fs := [(["notes", "a.note"], [7])], cache := [],
          invalidated := [] }).1.sync = some r2 ∧
      r2.content_hash = some none) ∧
    (∃ r2, findKey "id1" (process_note_file failHashEnv 9 "T9"
        { id := "id1", name := "a.note", size := some 1, modifiedTime := "T0",
          parents := [] }
        { sync := [], current := [], fs := [], cache := [],
          invalidated := [] }).1.sync = some r2 ∧
      r2.content_hash = some none ∧
      (process_note_file failHashEnv 9 "T9"
        { id := "id1", name := "a.note", size := some 1, modifiedTime := "T0",
          parents := [] }
        { sync := [], current := [], fs := [], cache := [],
          invalidated := [] }).2 = true) :=
  ⟨c6_null_hash_redownload.1 testEnv [(["notes", "a.note"], [7])] "id1" 1 "T0"
      [("id1", { sampleRecord with content_hash := some none })] [] "a.note"
      { sampleRecord with content_hash := some none } [7] "1"
      (by decide) (by decide) rfl rfl rfl (by decide),
   c6_null_hash_redownload.2.1 testEnv 9 "T9"
      { id := "id1", name := "a.note", size := some 1, modifiedTime := "T0",
        parents := [] }
      { sync := [("id1", { sampleRecord with content_hash := none })],
        current := [], fs := [(["notes", "a.note"], [7])], cache := [],
        invalidated := [] } [7] { sampleRecord with content_hash := none }
      (by decide) (by decide) rfl rfl rfl,
   c6_null_hash_redownload.2.2 failHashEnv 9 "T9"
      { id := "id1", name := "a.note", size := some 1, modifiedTime := "T0",
        parents := [] }
      { sync := [], current := [], fs := [], cache := [], invalidated := [] }
      (by decide) (by decide)⟩

/-! ### Claim C7 -/

/-- Claim C7 counterexample: the resolver carries no visited set.  On the
two-cycle A -> B -> A it performs one parent lookup per available recursion
frame — 6 lookups at depth budget 5, 12 at budget 11, though only two
distinct identifiers exist — and at budget 3 it resolves the cycle to the
bogus nested path A/B/A rather than falling back to the mirror root. -/
theorem c7_no_visited_set_counterexample :
    (get_folder_path cycleEnv 5 ["A"] []).2.2 = 6 ∧
    (get_folder_path cycleEnv 11 ["A"] []).2.2 = 12 ∧
    (get_folder_path cycleEnv 3 ["A"] []).1 = ["A", "B", "A"] := by
  refine ⟨?_, ?_, ?_⟩ <;> decide

/-- Claim C7 amended: get_folder_path has no visited-identifier set; on a
cyclic parent chain its recursion is bounded only by the interpreter
recursion limit (the fuel), issuing fuel + 1 parent lookups before the
caught RecursionError unwinds — the lookup count grows without bound in
the available depth instead of being cut off by a visited set. -/
theorem c7_cycle_lookup_calls_unbounded (fuel : Nat) :
    ((get_folder_path cycleEnv fuel ["A"] []).2.2 = fuel + 1) ∧
    ((get_folder_path cycleEnv fuel ["B"] []).2.2 = fuel + 1) := by
  induction fuel with
  | zero => constructor <;> rfl
  | succ n ih =>
    constructor
    · rw [get_folder_path_step cycleEnv n "A" [] [] "A" ["B"] rfl rfl]
      simpa using ih.2
    · rw [get_folder_path_step cycleEnv n "B" [] [] "B" ["A"] rfl rfl]
      simpa using ih.1

/-! ### Claim C8 -/

/-- Claim C8: for an entry whose parent chain is A -> B -> root (the parent
of the file is B, the parent of B is A, A has no parent), the resolver yields folder
path [A, B], the resolved relative path renders as A/B/<fileName>, the
first resolution issues exactly two parent-lookup calls, and resolving the
same identifier again is served from the folder cache with zero further
lookup calls. -/
theorem c8_chain_resolution_and_memoization (env : Env) (fuel fuel2 : Nat)
    (a b na nb fname : String)
    (hb : env.lookupFolder b = some (nb, [a]))
    (ha : env.lookupFolder a = some (na, [])) :
    (get_folder_path env (fuel + 2) [b] []).1 = [na, nb] ∧
    String.intercalate "/" (relPathOf (get_folder_path env (fuel + 2) [b] []).1 fname) =
      na ++ "/" ++ nb ++ "/" ++ fname ∧
    (get_folder_path env (fuel + 2) [b] []).2.2 = 2 ∧
    get_folder_path env fuel2 [b] (get_folder_path env (fuel + 2) [b] []).2.1 =
      ([na, nb], (get_folder_path env (fuel + 2) [b] []).2.1, 0) := by
  have h0 : get_folder_path env fuel [] ([] : Cache) = ([], [], 0) :=
    get_folder_path_nil env fuel []
  have hstepA : get_folder_path env (fuel + 1) [a] [] = ([na], setKey a [na] [], 1) := by
    rw [get_folder_path_step env fuel a [] [] na [] rfl ha, h0]
    simp
  have hstepB : get_folder_path env (fuel + 2) [b] [] =
      ([na, nb], setKey b [na, nb] (setKey a [na] []), 2) := by
    have h2 : fuel + 2 = (fuel + 1) + 1 := rfl
    rw [h2, get_folder_path_step env (fuel + 1) b [] [] nb [a] rfl hb, hstepA]
    simp
  rw [hstepB]
  refine ⟨rfl, ?_, rfl, ?_⟩
  · simp [relPathOf, String.intercalate, String.intercalate.go, String.append_assoc]
  · exact get_folder_path_hit env fuel2 b [] _ [na, nb]
      (findKey_setKey_self b [na, nb] _)

/-- Witness for C8 at a concrete hierarchy. -/
theorem c8_chain_resolution_and_memoization_witness :
    (get_folder_path chainEnv 2 ["bId"] []).1 = ["A", "B"] ∧
    String.intercalate "/" (relPathOf (get_folder_path chainEnv 2 ["bId"] []).1 "f.note") =
      "A" ++ "/" ++ "B" ++ "/" ++ "f.note" ∧
    (get_folder_path chainEnv 2 ["bId"] []).2.2 = 2 ∧
    get_folder_path chainEnv 7 ["bId"] (get_folder_path chainEnv 2 ["bId"] []).2.1 =
      (["A", "B"], (get_folder_path chainEnv 2 ["bId"] []).2.1, 0) :=
  c8_chain_resolution_and_memoization chainEnv 0 7 "aId" "bId" "A" "B" "f.note"
    (by decide) (by decide)

/-! ### Claim C1 -/

theorem mem_save_trace_nil (st : SyncState) : [] ∈ save_sync_state_trace st := by
  simp only [save_sync_state_trace, List.mem_map]
  exact ⟨0, by simp [List.mem_range], by simp⟩

theorem mem_save_trace_full (st : SyncState) :
    (serializeState st).data ∈ save_sync_state_trace st := by
  simp only [save_sync_state_trace, List.mem_map]
  exact ⟨(serializeState st).data.length, by simp [List.mem_range], by simp⟩

theorem serializeState_data_ne_nil (st : SyncState) :
    (serializeState st).data ≠ [] := by
  unfold serializeState
  simp [String.data_append]

/-- Claim C1 counterexample: saving a one-record state over a previous
complete state passes through the truncated (empty) file content, which is
neither the previous complete state nor the new one — so save_sync_state
interrupted right after the open leaves a truncated file. -/
theorem c1_save_not_atomic_counterexample :
    [] ∈ save_sync_state_trace [("i", sampleRecord)] ∧
    ([] : List Char) ≠ (serializeState []).data ∧
    ([] : List Char) ≠ (serializeState [("i", sampleRecord)]).data :=
  ⟨mem_save_trace_nil _, by decide, by decide⟩

/-- Claim C1 amended: save_sync_state does not stage through a temporary
file — it opens sync_state.json with mode "w", truncating it in place, and
writes the serialization directly, so the contents observable during a
save include the empty (truncated) file as well as the completed
serialization, which is never empty. -/
theorem c1_save_direct_write (st : SyncState) :
    [] ∈ save_sync_state_trace st ∧
    (serializeState st).data ∈ save_sync_state_trace st ∧
    (serializeState st).data ≠ [] :=
  ⟨mem_save_trace_nil st, mem_save_trace_full st, serializeState_data_ne_nil st⟩

/-! ### Claim C2 -/

/-- Claim C2 counterexample: on a corrupt sync-state file (here any content
the modelled json.load rejects), load_sync_state propagates the decode
error to its caller instead of yielding the empty state. -/
theorem c2_load_corrupt_counterexample :
    load_sync_state jsonLoadModel (some "not json") =
      Except.error "json.decoder.JSONDecodeError" ∧
    load_sync_state jsonLoadModel (some "not json") ≠ Except.ok [] := by
  refine ⟨rfl, ?_⟩
  intro h
  rw [show load_sync_state jsonLoadModel (some "not json") =
    Except.error "json.decoder.JSONDecodeError" from rfl] at h
  exact Except.noConfusion h

/-- Claim C2 amended: a missing sync-state file yields the empty state, but
a corrupt file does not — the error raised by json.load is not caught by
load_sync_state and reaches the caller. -/
theorem c2_load_missing_empty_corrupt_raises :
    (∀ jsonLoad : String → Option SyncState,
       load_sync_state jsonLoad none = Except.ok []) ∧
    (∀ (jsonLoad : String → Option SyncState) (content : String),
       jsonLoad content = none →
       load_sync_state jsonLoad (some content) =
         Except.error "json.decoder.JSONDecodeError") := by
  constructor
  · intro p
    rfl
  · intro p c h
    simp [load_sync_state, h]

/-- Witness for C2 amended, at the modelled json.load and a concrete
corrupt content. -/
theorem c2_load_missing_empty_corrupt_raises_witness :
    load_sync_state jsonLoadModel none = Except.ok [] ∧
    load_sync_state jsonLoadModel (some "garbage") =
      Except.error "json.decoder.JSONDecodeError" :=
  ⟨c2_load_missing_empty_corrupt_raises.1 jsonLoadModel,
   c2_load_missing_empty_corrupt_raises.2 jsonLoadModel "garbage" (by decide)⟩

/-! ### Claim C10 -/

/-- Claim C10: every transfer is staged through the temp path.  When the
remote fetch fails partway, every filesystem state observable during the
download keeps the final relative path byte-for-byte unchanged and no
completed filesystem is produced; when the transfer fully succeeds, the
complete content is placed at the final path. -/
theorem c10_staged_download_failure_safe (chunks : List Content)
    (temp_path out_path : Path) (fs : FS) (hne : temp_path ≠ out_path) :
    (∀ s ∈ (download_and_place chunks false temp_path out_path fs).1,
       findKey out_path s = findKey out_path fs) ∧
    (download_and_place chunks false temp_path out_path fs).2 = none ∧
    (∀ final, (download_and_place chunks true temp_path out_path fs).2 = some final →
       findKey out_path final = some (joinChunks chunks)) := by
  refine ⟨?_, rfl, ?_⟩
  · intro s hs
    simp only [download_and_place, Bool.false_eq_true, if_false, List.mem_map] at hs
    obtain ⟨k, _, hk⟩ := hs
    rw [← hk]
    exact findKey_setKey_ne _ _ (Ne.symm hne)
  · intro final hfin
    simp only [download_and_place, if_true] at hfin
    rw [← Option.some.inj hfin]
    exact findKey_setKey_self _ _ _

/-! ### Filesystem lemmas for the reconciler -/

theorem ne_cons_of_head {a b : String} (x y : List String) (h : a ≠ b) :
    a :: x ≠ b :: y := by
  intro he
  injection he with h1 _
  exact h h1

theorem isPrefixOf_cons_cons_ne {a b : String} (l1 l2 : List String)
    (h : a ≠ b) : (a :: l1).isPrefixOf (b :: l2) = false := by
  simp [List.isPrefixOf, h]

theorem isPrefixOf_cons_nil {a : String} (l1 : List String) :
    (a :: l1).isPrefixOf ([] : List String) = false := rfl

theorem findKey_filter (q : Path × Content → Bool) (p : Path) (l : FS)
    (hq : ∀ c, q (p, c) = true) : findKey p (l.filter q) = findKey p l := by
  induction l with
  | nil => rfl
  | cons kv t ih =>
    by_cases hk : kv.1 = p
    · have hkv : kv = (p, kv.2) := by
        cases kv
        simp_all
      rw [hkv]
      simp [List.filter, hq kv.2, findKey, ih]
    · cases hqv : q kv with
      | true => simp [List.filter, hqv, findKey, hk, ih]
      | false => simp [List.filter, hqv, findKey, hk, ih]

theorem head_ne_isPrefixOf_false {a : String} {d p : Path}
    (hd : d.head? = some a) (hp : p.head? ≠ some a)
    (hne : ∀ b, p.head? = some b → a ≠ b) : d.isPrefixOf p = false := by
  cases d with
  | nil => simp at hd
  | cons dh dt =>
    cases p with
    | nil => exact isPrefixOf_cons_nil dt
    | cons ph pt =>
      simp only [List.head?_cons, Option.some.injEq] at hd
      subst hd
      exact isPrefixOf_cons_cons_ne dt pt (hne ph rfl)

theorem findKey_cleanup_extractions (rel : Path) (fs : FS) (p : Path)
    (h1 : p.head? ≠ some "images") (h2 : p.head? ≠ some "titles") :
    findKey p (cleanup_extractions_for_file rel fs) = findKey p fs := by
  unfold cleanup_extractions_for_file
  rw [findKey_filter, findKey_filter]
  · intro c
    have : (("images" :: (rel.dropLast ++ [(rel.getLastD "").replace ".note" ""])
        : Path).isPrefixOf p) = false := by
      refine head_ne_isPrefixOf_false rfl h1 ?_
      intro b hb hab
      exact h1 (by rw [hb, ← hab])
    simpa using this
  · intro c
    have : (("titles" :: (rel.dropLast ++ [(rel.getLastD "").replace ".note" ""])
        : Path).isPrefixOf p) = false := by
      refine head_ne_isPrefixOf_false rfl h2 ?_
      intro b hb hab
      exact h2 (by rw [hb, ← hab])
    simpa using this

theorem findKey_move_to_deleted_other (ts : String) (src : Path) (fs : FS)
    (p : Path) (hp1 : p ≠ src) (hp2 : p ≠ quarantinePath ts src) :
    findKey p (move_to_deleted ts src fs).1 = findKey p fs := by
  unfold move_to_deleted
  cases hc : findKey src fs with
  | none => rfl
  | some c =>
    simp only []
    rw [findKey_setKey_ne _ _ hp2, findKey_eraseKey_ne _ hp1]

theorem move_to_deleted_found (ts : String) (src : Path) (fs : FS)
    (c : Content) (hc : findKey src fs = some c) :
    move_to_deleted ts src fs =
      (setKey (quarantinePath ts src) c (eraseKey src fs),
       [(src, quarantinePath ts src)]) := by
  unfold move_to_deleted
  rw [hc]

theorem keys_filter_nodup (q : Path × Content → Bool) (l : FS)
    (h : (keys l).Nodup) : (keys (l.filter q)).Nodup :=
  h.sublist ((List.filter_sublist l).map Prod.fst)

theorem cleanup_extractions_keys_nodup (rel : Path) (fs : FS)
    (h : (keys fs).Nodup) :
    (keys (cleanup_extractions_for_file rel fs)).Nodup := by
  unfold cleanup_extractions_for_file
  exact keys_filter_nodup _ _ (keys_filter_nodup _ _ h)

theorem keys_eraseKey_sub {κ α : Type} [DecidableEq κ] (k k' : κ)
    (l : List (κ × α)) (h : k' ∈ keys (eraseKey k l)) : k' ∈ keys l := by
  induction l with
  | nil => simpa [eraseKey] using h
  | cons kv t ih =>
    by_cases hk : kv.1 = k
    · simp only [eraseKey, if_pos hk] at h
      exact List.mem_cons_of_mem _ h
    · simp only [eraseKey, if_neg hk, keys, List.map_cons, List.mem_cons] at h ⊢
      rcases h with h | h
      · exact Or.inl h
      · exact Or.inr (ih (by simpa [keys] using h))

theorem move_to_deleted_keys_nodup (ts : String) (src : Path) (fs : FS)
    (h : (keys fs).Nodup) : (keys (move_to_deleted ts src fs).1).Nodup := by
  unfold move_to_deleted
  cases hc : findKey src fs with
  | none => exact h
  | some c =>
    exact keys_setKey_nodup _ _ _ (keys_eraseKey_nodup _ _ h)

/-- Witness for C10 at a concrete two-chunk transfer over an existing
previous version of the file. -/
theorem c10_staged_download_failure_safe_witness :
    (∀ s ∈ (download_and_place [[1], [2]] false ["tmp", "x"] ["notes", "x.note"]
        [(["notes", "x.note"], [9])]).1,
       findKey ["notes", "x.note"] s =
         findKey ["notes", "x.note"] [(["notes", "x.note"], [9])]) ∧
    (download_and_place [[1], [2]] false ["tmp", "x"] ["notes", "x.note"]
      [(["notes", "x.note"], [9])]).2 = none ∧
    (∀ final, (download_and_place [[1], [2]] true ["tmp", "x"] ["notes", "x.note"]
        [(["notes", "x.note"], [9])]).2 = some final →
       findKey ["notes", "x.note"] final = some (joinChunks [[1], [2]])) :=
  c10_staged_download_failure_safe [[1], [2]] ["tmp", "x"] ["notes", "x.note"]
    [(["notes", "x.note"], [9])] (by decide)

/-! ### The reconciler loop characterization -/

theorem head_cons_ne (a b : String) (l : List String) (h : a ≠ b) :
    ((a :: l) : Path).head? ≠ some b := by
  simp only [List.head?_cons]
  intro hcontra
  exact h (Option.some.inj hcontra)

theorem quarantine_head_ne (ts : String) (x : Path) (b : String)
    (h : (".deleted" : String) ≠ b) : (quarantinePath ts x).head? ≠ some b := by
  simp only [quarantinePath, List.head?_cons]
  intro hcontra
  exact h (Option.some.inj hcontra)

theorem ne_quarantinePath_of_head (ts : String) (a : String) (x y : Path)
    (h : a ≠ ".deleted") : (a :: x : Path) ≠ quarantinePath ts y := by
  unfold quarantinePath
  exact ne_cons_of_head _ _ h

theorem quarantinePath_ne_cons (ts : String) (a : String) (x y : Path)
    (h : (".deleted" : String) ≠ a) : quarantinePath ts y ≠ (a :: x : Path) := by
  unfold quarantinePath
  exact ne_cons_of_head _ _ h

theorem cleanupLoop_spec (ts : String) :
    ∀ (ids : List String) (s : SyncState) (fs : FS) (inv : List Path)
      (mv : List (Path × Path)),
      ids.Nodup → (keys s).Nodup → (keys fs).Nodup →
      (∀ id ∈ ids, (findKey id s).isSome) →
      (ids.map (fun id => ("notes" : String) :: (recOf s id).relative_path)).Nodup →
      (ids.map (fun id => quarantinePath ts
        (("notes" : String) :: (recOf s id).relative_path))).Nodup →
      (∀ k, k ∉ ids → findKey k (cleanupLoop ts ids s fs inv mv).1 = findKey k s) ∧
      (∀ k ∈ ids, findKey k (cleanupLoop ts ids s fs inv mv).1 = none) ∧
      (∀ x ∈ inv, x ∈ (cleanupLoop ts ids s fs inv mv).2.2.1) ∧
      (∀ x ∈ mv, x ∈ (cleanupLoop ts ids s fs inv mv).2.2.2) ∧
      (∀ id ∈ ids, (recOf s id).relative_path ∈ (cleanupLoop ts ids s fs inv mv).2.2.1) ∧
      (∀ p : Path, p.head? ≠ some "images" → p.head? ≠ some "titles" →
        (∀ id ∈ ids, p ≠ "notes" :: (recOf s id).relative_path) →
        (∀ id ∈ ids, p ≠ quarantinePath ts ("notes" :: (recOf s id).relative_path)) →
        findKey p (cleanupLoop ts ids s fs inv mv).2.1 = findKey p fs) ∧
      (∀ id ∈ ids, ∀ c,
        findKey ("notes" :: (recOf s id).relative_path) fs = some c →
        findKey (quarantinePath ts ("notes" :: (recOf s id).relative_path))
          (cleanupLoop ts ids s fs inv mv).2.1 = some c ∧
        ("notes" :: (recOf s id).relative_path,
         quarantinePath ts ("notes" :: (recOf s id).relative_path)) ∈
          (cleanupLoop ts ids s fs inv mv).2.2.2) ∧
      (∀ id ∈ ids, findKey ("notes" :: (recOf s id).relative_path)
        (cleanupLoop ts ids s fs inv mv).2.1 = none) := by
  intro ids
  induction ids with
  | nil =>
    intro s fs inv mv _ _ _ _ _ _
    exact ⟨fun k _ => rfl, fun k hk => absurd hk (List.not_mem_nil k),
           fun x hx => hx, fun x hx => hx,
           fun id hid => absurd hid (List.not_mem_nil id),
           fun p _ _ _ _ => rfl,
           fun id hid => absurd hid (List.not_mem_nil id),
           fun id hid => absurd hid (List.not_mem_nil id)⟩
  | cons id0 rest ih =>
    intro s fs inv mv hnd hks hkf hall hsrc hqn
    obtain ⟨r0, hr0⟩ : ∃ r, findKey id0 s = some r :=
      Option.isSome_iff_exists.mp (hall id0 (List.mem_cons_self id0 rest))
    have hrec0 : recOf s id0 = r0 := by simp [recOf, hr0]
    have hnd0 : id0 ∉ rest := (List.nodup_cons.mp hnd).1
    have hndr : rest.Nodup := (List.nodup_cons.mp hnd).2
    have hunfold : cleanupLoop ts (id0 :: rest) s fs inv mv =
        cleanupLoop ts rest (eraseKey id0 s)
          (cleanup_extractions_for_file r0.relative_path
            (move_to_deleted ts ("notes" :: r0.relative_path) fs).1)
          (inv ++ [r0.relative_path])
          (mv ++ (move_to_deleted ts ("notes" :: r0.relative_path) fs).2) := by
      simp only [cleanupLoop, hr0]
      rfl
    have hstable : ∀ id ∈ rest, recOf (eraseKey id0 s) id = recOf s id := by
      intro id hid
      have hne : id ≠ id0 := fun he => hnd0 (he ▸ hid)
      simp [recOf, findKey_eraseKey_ne s hne]
    have hmapsrc : rest.map
          (fun id => ("notes" : String) :: (recOf (eraseKey id0 s) id).relative_path) =
        rest.map (fun id => ("notes" : String) :: (recOf s id).relative_path) := by
      apply List.map_congr_left
      intro id hid
      rw [hstable id hid]
    have hmapqn : rest.map (fun id => quarantinePath ts
          (("notes" : String) :: (recOf (eraseKey id0 s) id).relative_path)) =
        rest.map (fun id => quarantinePath ts
          (("notes" : String) :: (recOf s id).relative_path)) := by
      apply List.map_congr_left
      intro id hid
      rw [hstable id hid]
    have hks2 : (keys (eraseKey id0 s)).Nodup := keys_eraseKey_nodup id0 s hks
    have hkf2 : (keys (cleanup_extractions_for_file r0.relative_path
        (move_to_deleted ts ("notes" :: r0.relative_path) fs).1)).Nodup :=
      cleanup_extractions_keys_nodup _ _ (move_to_deleted_keys_nodup _ _ _ hkf)
    have hall2 : ∀ id ∈ rest, (findKey id (eraseKey id0 s)).isSome := by
      intro id hid
      have hne : id ≠ id0 := fun he => hnd0 (he ▸ hid)
      rw [findKey_eraseKey_ne s hne]
      exact hall id (List.mem_cons_of_mem _ hid)
    have hsrc' := hsrc
    have hqn' := hqn
    rw [List.map_cons, List.nodup_cons, hrec0] at hsrc' hqn'
    obtain ⟨IH1, IH2, IH3, IH4, IH5, IH6, IH7, IH8⟩ :=
      ih (eraseKey id0 s)
        (cleanup_extractions_for_file r0.relative_path
          (move_to_deleted ts ("notes" :: r0.relative_path) fs).1)
        (inv ++ [r0.relative_path])
        (mv ++ (move_to_deleted ts ("notes" :: r0.relative_path) fs).2)
        hndr hks2 hkf2 hall2 (by rw [hmapsrc]; exact hsrc'.2)
        (by rw [hmapqn]; exact hqn'.2)
    have not_mem_cons : ∀ k : String, k ∉ id0 :: rest → k ≠ id0 ∧ k ∉ rest := by
      intro k hk
      exact ⟨fun he => hk (he ▸ List.mem_cons_self id0 rest),
             fun hm => hk (List.mem_cons_of_mem _ hm)⟩
    have step_pres : ∀ p : Path, p ≠ "notes" :: r0.relative_path →
        p ≠ quarantinePath ts ("notes" :: r0.relative_path) →
        p.head? ≠ some "images" → p.head? ≠ some "titles" →
        findKey p (cleanup_extractions_for_file r0.relative_path
          (move_to_deleted ts ("notes" :: r0.relative_path) fs).1) = findKey p fs := by
      intro p hp1 hp2 hp3 hp4
      rw [findKey_cleanup_extractions _ _ _ hp3 hp4,
          findKey_move_to_deleted_other ts _ fs p hp1 hp2]
    have src_ne_rest : ∀ id ∈ rest,
        ("notes" : String) :: r0.relative_path ≠
          "notes" :: (recOf s id).relative_path := by
      intro id hid heq
      exact hsrc'.1 (by rw [heq]; exact List.mem_map_of_mem _ hid)
    have dest_ne_rest : ∀ id ∈ rest,
        quarantinePath ts (("notes" : String) :: r0.relative_path) ≠
          quarantinePath ts ("notes" :: (recOf s id).relative_path) := by
      intro id hid heq
      exact hqn'.1 (by rw [heq]; exact List.mem_map_of_mem _ hid)
    have src_after : findKey ("notes" :: r0.relative_path)
        (cleanup_extractions_for_file r0.relative_path
          (move_to_deleted ts ("notes" :: r0.relative_path) fs).1) = none := by
      rw [findKey_cleanup_extractions _ _ _
        (head_cons_ne "notes" "images" _ (by decide))
        (head_cons_ne "notes" "titles" _ (by decide))]
      cases hc : findKey ("notes" :: r0.relative_path) fs with
      | none =>
        have hmv : (move_to_deleted ts ("notes" :: r0.relative_path) fs).1 = fs := by
          unfold move_to_deleted
          rw [hc]
        rw [hmv]
        exact hc
      | some c =>
        rw [move_to_deleted_found ts _ fs c hc]
        show findKey ("notes" :: r0.relative_path)
          (setKey (quarantinePath ts ("notes" :: r0.relative_path)) c
            (eraseKey ("notes" :: r0.relative_path) fs)) = none
        rw [findKey_setKey_ne _ _ (ne_quarantinePath_of_head ts "notes" _ _ (by decide))]
        exact findKey_eraseKey_self _ fs hkf
    rw [hunfold]
    refine ⟨?_, ?_, ?_, ?_, ?_, ?_, ?_, ?_⟩
    · intro k hk
      obtain ⟨h1, h2⟩ := not_mem_cons k hk
      rw [IH1 k h2, findKey_eraseKey_ne s h1]
    · intro k hk
      rcases List.mem_cons.mp hk with he | hm
      · rw [he, IH1 id0 hnd0]
        exact findKey_eraseKey_self id0 s hks
      · exact IH2 k hm
    · intro x hx
      exact IH3 x (List.mem_append_left _ hx)
    · intro x hx
      exact IH4 x (List.mem_append_left _ hx)
    · intro id hid
      rcases List.mem_cons.mp hid with he | hm
      · rw [he, hrec0]
        exact IH3 _ (List.mem_append_right _ (List.mem_singleton.mpr rfl))
      · rw [← hstable id hm]
        exact IH5 id hm
    · intro p hp3 hp4 hpsrc hpdest
      have hpr : ∀ id ∈ rest, p ≠ "notes" :: (recOf (eraseKey id0 s) id).relative_path := by
        intro id hid
        rw [hstable id hid]
        exact hpsrc id (List.mem_cons_of_mem _ hid)
      have hpd : ∀ id ∈ rest,
          p ≠ quarantinePath ts ("notes" :: (recOf (eraseKey id0 s) id).relative_path) := by
        intro id hid
        rw [hstable id hid]
        exact hpdest id (List.mem_cons_of_mem _ hid)
      rw [IH6 p hp3 hp4 hpr hpd]
      exact step_pres p
        (by have h0 := hpsrc id0 (List.mem_cons_self id0 rest); rwa [hrec0] at h0)
        (by have h0 := hpdest id0 (List.mem_cons_self id0 rest); rwa [hrec0] at h0)
        hp3 hp4
    · intro id hid c hc
      rcases List.mem_cons.mp hid with he | hm
      · rw [he] at hc ⊢
        rw [hrec0] at hc ⊢
        have hdest_fs2 : findKey (quarantinePath ts ("notes" :: r0.relative_path))
            (cleanup_extractions_for_file r0.relative_path
              (move_to_deleted ts ("notes" :: r0.relative_path) fs).1) = some c := by
          rw [findKey_cleanup_extractions _ _ _
            (quarantine_head_ne ts _ "images" (by decide))
            (quarantine_head_ne ts _ "titles" (by decide))]
          rw [move_to_deleted_found ts _ fs c hc]
          exact findKey_setKey_self _ _ _
        constructor
        · rw [IH6 (quarantinePath ts ("notes" :: r0.relative_path))
            (quarantine_head_ne ts _ "images" (by decide))
            (quarantine_head_ne ts _ "titles" (by decide))
            (fun id1 hid1 => quarantinePath_ne_cons ts "notes" _ _ (by decide))
            (fun id1 hid1 => by
              rw [hstable id1 hid1]
              exact dest_ne_rest id1 hid1)]
          exact hdest_fs2
        · apply IH4
          rw [move_to_deleted_found ts _ fs c hc]
          exact List.mem_append_right _ (List.mem_singleton.mpr rfl)
      · rw [← hstable id hm] at hc ⊢
        have hc2 : findKey ("notes" :: (recOf (eraseKey id0 s) id).relative_path)
            (cleanup_extractions_for_file r0.relative_path
              (move_to_deleted ts ("notes" :: r0.relative_path) fs).1) = some c := by
          rw [step_pres ("notes" :: (recOf (eraseKey id0 s) id).relative_path)
            (by rw [hstable id hm]
                exact Ne.symm (src_ne_rest id hm))
            (ne_quarantinePath_of_head ts "notes" _ _ (by decide))
            (head_cons_ne "notes" "images" _ (by decide))
            (head_cons_ne "notes" "titles" _ (by decide))]
          exact hc
        exact IH7 id hm c hc2
    · intro id hid
      rcases List.mem_cons.mp hid with he | hm
      · rw [he, hrec0]
        rw [IH6 ("notes" :: r0.relative_path)
          (head_cons_ne "notes" "images" _ (by decide))
          (head_cons_ne "notes" "titles" _ (by decide))
          (fun id1 hid1 => by
            rw [hstable id1 hid1]
            exact src_ne_rest id1 hid1)
          (fun id1 hid1 => ne_quarantinePath_of_head ts "notes" _ _ (by decide))]
        exact src_after
      · rw [← hstable id hm]
        exact IH8 id hm

/-! ### Claim C4 -/

/-- Claim C4: for every identifier present in the state but absent from the
observed identifiers, the reconciler removes its record, invokes the
downstream invalidator on its relative path, and — when its local file
exists — moves that file, content intact (never hard-deleted), to the
quarantine path <timestamp>_<originalFileName> under ".deleted", erasing
it from its old location; records of observed identifiers are untouched,
and the returned count equals the number of retired identifiers. -/
theorem c4_reconciler_quarantines_and_removes (now : String)
    (sync : SyncState) (cur : List String) (fs : FS)
    (hks : (keys sync).Nodup) (hkf : (keys fs).Nodup)
    (hsrc : (((keys sync).filter (fun k => !(cur.contains k))).map
      (fun id => ("notes" : String) :: (recOf sync id).relative_path)).Nodup)
    (hqn : (((keys sync).filter (fun k => !(cur.contains k))).map
      (fun id => quarantinePath now
        (("notes" : String) :: (recOf sync id).relative_path))).Nodup) :
    (cleanup_deleted_files now sync cur fs).count =
      ((keys sync).filter (fun k => !(cur.contains k))).length ∧
    (∀ id ∈ (keys sync).filter (fun k => !(cur.contains k)),
      findKey id (cleanup_deleted_files now sync cur fs).sync = none ∧
      (recOf sync id).relative_path ∈
        (cleanup_deleted_files now sync cur fs).invalidated ∧
      (∀ c, findKey ("notes" :: (recOf sync id).relative_path) fs = some c →
        findKey (quarantinePath now ("notes" :: (recOf sync id).relative_path))
          (cleanup_deleted_files now sync cur fs).fs = some c ∧
        ("notes" :: (recOf sync id).relative_path,
         quarantinePath now ("notes" :: (recOf sync id).relative_path)) ∈
          (cleanup_deleted_files now sync cur fs).moved ∧
        findKey ("notes" :: (recOf sync id).relative_path)
          (cleanup_deleted_files now sync cur fs).fs = none)) ∧
    (∀ id, id ∉ (keys sync).filter (fun k => !(cur.contains k)) →
      findKey id (cleanup_deleted_files now sync cur fs).sync =
        findKey id sync) := by
  have hd_nodup : ((keys sync).filter (fun k => !(cur.contains k))).Nodup :=
    hks.filter _
  have hall : ∀ id ∈ (keys sync).filter (fun k => !(cur.contains k)),
      (findKey id sync).isSome := by
    intro id hid
    exact (mem_keys_iff_findKey_isSome id sync).mp (List.mem_of_mem_filter hid)
  obtain ⟨S1, S2, S3, S4, S5, S6, S7, S8⟩ :=
    cleanupLoop_spec now ((keys sync).filter (fun k => !(cur.contains k)))
      sync fs [] [] hd_nodup hks hkf hall hsrc hqn
  refine ⟨rfl, ?_, ?_⟩
  · intro id hid
    refine ⟨S2 id hid, S5 id hid, ?_⟩
    intro c hc
    obtain ⟨h1, h2⟩ := S7 id hid c hc
    exact ⟨h1, h2, S8 id hid⟩
  · intro id hid
    exact S1 id hid

/-- Witness for C4 at a concrete one-entry state whose identifier is no
longer observed. -/
theorem c4_reconciler_quarantines_and_removes_witness :
    (cleanup_deleted_files "TS" [("e1", sampleRecord)] []
      [(["notes", "a.note"], [5])]).count =
      ((keys [("e1", sampleRecord)]).filter
        (fun k => !(([] : List String).contains k))).length ∧
    (∀ id ∈ (keys [("e1", sampleRecord)]).filter
        (fun k => !(([] : List String).contains k)),
      findKey id (cleanup_deleted_files "TS" [("e1", sampleRecord)] []
        [(["notes", "a.note"], [5])]).sync = none ∧
      (recOf [("e1", sampleRecord)] id).relative_path ∈
        (cleanup_deleted_files "TS" [("e1", sampleRecord)] []
          [(["notes", "a.note"], [5])]).invalidated ∧
      (∀ c, findKey ("notes" :: (recOf [("e1", sampleRecord)] id).relative_path)
          [(["notes", "a.note"], [5])] = some c →
        findKey (quarantinePath "TS"
            ("notes" :: (recOf [("e1", sampleRecord)] id).relative_path))
          (cleanup_deleted_files "TS" [("e1", sampleRecord)] []
            [(["notes", "a.note"], [5])]).fs = some c ∧
        ("notes" :: (recOf [("e1", sampleRecord)] id).relative_path,
         quarantinePath "TS"
           ("notes" :: (recOf [("e1", sampleRecord)] id).relative_path)) ∈
          (cleanup_deleted_files "TS" [("e1", sampleRecord)] []
            [(["notes", "a.note"], [5])]).moved ∧
        findKey ("notes" :: (recOf [("e1", sampleRecord)] id).relative_path)
          (cleanup_deleted_files "TS" [("e1", sampleRecord)] []
            [(["notes", "a.note"], [5])]).fs = none)) ∧
    (∀ id, id ∉ (keys [("e1", sampleRecord)]).filter
        (fun k => !(([] : List String).contains k)) →
      findKey id (cleanup_deleted_files "TS" [("e1", sampleRecord)] []
        [(["notes", "a.note"], [5])]).sync =
        findKey id [("e1", sampleRecord)]) :=
  c4_reconciler_quarantines_and_removes "TS" [("e1", sampleRecord)] []
    [(["notes", "a.note"], [5])] (by decide) (by decide) (by decide) (by decide)

/-! ### Per-entry and per-run bookkeeping lemmas -/

theorem process_note_file_sync_self (env : Env) (fuel : Nat) (now : String)
    (file : DriveFile) (rs : RunState) :
    (findKey file.id (process_note_file env fuel now file rs).1.sync).isSome := by
  cases hd : should_download_file env rs.fs file.id (file.size.getD 0)
      file.modifiedTime rs.sync (get_folder_path env fuel file.parents rs.cache).1
      file.name with
  | mk b reason =>
    cases b
    · rw [process_note_file_skip_eq env fuel now reason file rs
        (get_folder_path env fuel file.parents rs.cache).1
        (get_folder_path env fuel file.parents rs.cache).2.1
        (get_folder_path env fuel file.parents rs.cache).2.2 rfl hd]
      simp [findKey_setKey_self]
    · rw [process_note_file_download_eq env fuel now reason file rs
        (get_folder_path env fuel file.parents rs.cache).1
        (get_folder_path env fuel file.parents rs.cache).2.1
        (get_folder_path env fuel file.parents rs.cache).2.2 rfl hd]
      simp [findKey_setKey_self]

theorem process_note_file_sync_other (env : Env) (fuel : Nat) (now : String)
    (file : DriveFile) (rs : RunState) (k : String) (hne : k ≠ file.id) :
    findKey k (process_note_file env fuel now file rs).1.sync =
      findKey k rs.sync := by
  cases hd : should_download_file env rs.fs file.id (file.size.getD 0)
      file.modifiedTime rs.sync (get_folder_path env fuel file.parents rs.cache).1
      file.name with
  | mk b reason =>
    cases b
    · rw [process_note_file_skip_eq env fuel now reason file rs
        (get_folder_path env fuel file.parents rs.cache).1
        (get_folder_path env fuel file.parents rs.cache).2.1
        (get_folder_path env fuel file.parents rs.cache).2.2 rfl hd]
      exact findKey_setKey_ne _ _ hne
    · rw [process_note_file_download_eq env fuel now reason file rs
        (get_folder_path env fuel file.parents rs.cache).1
        (get_folder_path env fuel file.parents rs.cache).2.1
        (get_folder_path env fuel file.parents rs.cache).2.2 rfl hd]
      exact findKey_setKey_ne _ _ hne

theorem process_note_file_current (env : Env) (fuel : Nat) (now : String)
    (file : DriveFile) (rs : RunState) :
    (process_note_file env fuel now file rs).1.current =
      (if rs.current.contains file.id then rs.current
       else rs.current ++ [file.id]) := by
  cases hd : should_download_file env rs.fs file.id (file.size.getD 0)
      file.modifiedTime rs.sync (get_folder_path env fuel file.parents rs.cache).1
      file.name with
  | mk b reason =>
    cases b
    · rw [process_note_file_skip_eq env fuel now reason file rs
        (get_folder_path env fuel file.parents rs.cache).1
        (get_folder_path env fuel file.parents rs.cache).2.1
        (get_folder_path env fuel file.parents rs.cache).2.2 rfl hd]
    · rw [process_note_file_download_eq env fuel now reason file rs
        (get_folder_path env fuel file.parents rs.cache).1
        (get_folder_path env fuel file.parents rs.cache).2.1
        (get_folder_path env fuel file.parents rs.cache).2.2 rfl hd]

theorem process_note_file_keys_nodup (env : Env) (fuel : Nat) (now : String)
    (file : DriveFile) (rs : RunState) (h : (keys rs.sync).Nodup) :
    (keys (process_note_file env fuel now file rs).1.sync).Nodup := by
  cases hd : should_download_file env rs.fs file.id (file.size.getD 0)
      file.modifiedTime rs.sync (get_folder_path env fuel file.parents rs.cache).1
      file.name with
  | mk b reason =>
    cases b
    · rw [process_note_file_skip_eq env fuel now reason file rs
        (get_folder_path env fuel file.parents rs.cache).1
        (get_folder_path env fuel file.parents rs.cache).2.1
        (get_folder_path env fuel file.parents rs.cache).2.2 rfl hd]
      exact keys_setKey_nodup _ _ _ h
    · rw [process_note_file_download_eq env fuel now reason file rs
        (get_folder_path env fuel file.parents rs.cache).1
        (get_folder_path env fuel file.parents rs.cache).2.1
        (get_folder_path env fuel file.parents rs.cache).2.2 rfl hd]
      exact keys_setKey_nodup _ _ _ h

theorem processEntries_cons_good (env : Env) (fuel : Nat) (now : String)
    (f : DriveFile) (rest : List DriveFile) (rs : RunState)
    (hg : goodFile f = true) :
    (processEntries env fuel now (f :: rest) rs).1 =
      (processEntries env fuel now rest
        (process_note_file env fuel now f rs).1).1 := by
  simp only [processEntries, hg, if_true]
  cases hp : (process_note_file env fuel now f rs).2 <;> simp [hp]

theorem processEntries_cons_bad (env : Env) (fuel : Nat) (now : String)
    (f : DriveFile) (rest : List DriveFile) (rs : RunState)
    (hg : goodFile f = false) :
    processEntries env fuel now (f :: rest) rs =
      processEntries env fuel now rest rs := by
  simp only [processEntries, hg, Bool.false_eq_true, if_false]

theorem goodIds_nil : goodIds [] = [] := rfl

theorem goodIds_cons_good (f : DriveFile) (rest : List DriveFile)
    (hg : goodFile f = true) : goodIds (f :: rest) = f.id :: goodIds rest := by
  simp [goodIds, List.filter, hg]

theorem goodIds_cons_bad (f : DriveFile) (rest : List DriveFile)
    (hg : goodFile f = false) : goodIds (f :: rest) = goodIds rest := by
  simp [goodIds, List.filter, hg]

theorem processEntries_sync_isSome (env : Env) (fuel : Nat) (now : String) :
    ∀ (l : List DriveFile) (rs : RunState) (k : String),
      (findKey k (processEntries env fuel now l rs).1.sync).isSome ↔
        k ∈ goodIds l ∨ (findKey k rs.sync).isSome := by
  intro l
  induction l with
  | nil =>
    intro rs k
    simp [processEntries, goodIds]
  | cons f rest ihl =>
    intro rs k
    cases hg : goodFile f with
    | false =>
      rw [processEntries_cons_bad env fuel now f rest rs hg,
          goodIds_cons_bad f rest hg]
      exact ihl rs k
    | true =>
      rw [processEntries_cons_good env fuel now f rest rs hg,
          goodIds_cons_good f rest hg]
      rw [ihl (process_note_file env fuel now f rs).1 k]
      by_cases hk : k = f.id
      · subst hk
        simp [List.mem_cons, process_note_file_sync_self env fuel now f rs]
      · rw [process_note_file_sync_other env fuel now f rs k hk]
        simp [List.mem_cons, hk]

theorem processEntries_current_mem (env : Env) (fuel : Nat) (now : String) :
    ∀ (l : List DriveFile) (rs : RunState) (k : String),
      k ∈ (processEntries env fuel now l rs).1.current ↔
        k ∈ goodIds l ∨ k ∈ rs.current := by
  intro l
  induction l with
  | nil =>
    intro rs k
    simp [processEntries, goodIds]
  | cons f rest ihl =>
    intro rs k
    cases hg : goodFile f with
    | false =>
      rw [processEntries_cons_bad env fuel now f rest rs hg,
          goodIds_cons_bad f rest hg]
      exact ihl rs k
    | true =>
      rw [processEntries_cons_good env fuel now f rest rs hg,
          goodIds_cons_good f rest hg]
      rw [ihl (process_note_file env fuel now f rs).1 k,
          process_note_file_current env fuel now f rs]
      cases hc : rs.current.contains f.id with
      | true =>
        have hmem : f.id ∈ rs.current := List.mem_of_elem_eq_true hc
        have hmem2 : k = f.id → k ∈ rs.current := fun he => he ▸ hmem
        simp only [hc, if_true, List.mem_cons]
        tauto
      | false =>
        simp only [hc, Bool.false_eq_true, if_false, List.mem_cons,
          List.mem_append, List.mem_singleton]
        tauto

theorem processEntries_keys_nodup (env : Env) (fuel : Nat) (now : String) :
    ∀ (l : List DriveFile) (rs : RunState), (keys rs.sync).Nodup →
      (keys (processEntries env fuel now l rs).1.sync).Nodup := by
  intro l
  induction l with
  | nil =>
    intro rs h
    exact h
  | cons f rest ihl =>
    intro rs h
    cases hg : goodFile f with
    | false =>
      rw [processEntries_cons_bad env fuel now f rest rs hg]
      exact ihl rs h
    | true =>
      rw [processEntries_cons_good env fuel now f rest rs hg]
      exact ihl _ (process_note_file_keys_nodup env fuel now f rs h)

theorem cleanupLoop_sync_not_mem (ts : String) :
    ∀ (ids : List String) (s : SyncState) (fs : FS) (inv : List Path)
      (mv : List (Path × Path)) (k : String), k ∉ ids →
      findKey k (cleanupLoop ts ids s fs inv mv).1 = findKey k s := by
  intro ids
  induction ids with
  | nil =>
    intro s fs inv mv k _
    rfl
  | cons id0 rest ihl =>
    intro s fs inv mv k hk
    have h1 : k ≠ id0 := fun he => hk (he ▸ List.mem_cons_self id0 rest)
    have h2 : k ∉ rest := fun hm => hk (List.mem_cons_of_mem _ hm)
    cases hr : findKey id0 s with
    | none =>
      have hu : cleanupLoop ts (id0 :: rest) s fs inv mv =
          cleanupLoop ts rest s fs inv mv := by
        simp only [cleanupLoop, hr]
      rw [hu]
      exact ihl s fs inv mv k h2
    | some r0 =>
      have hu : cleanupLoop ts (id0 :: rest) s fs inv mv =
          cleanupLoop ts rest (eraseKey id0 s)
            (cleanup_extractions_for_file r0.relative_path
              (move_to_deleted ts ("notes" :: r0.relative_path) fs).1)
            (inv ++ [r0.relative_path])
            (mv ++ (move_to_deleted ts ("notes" :: r0.relative_path) fs).2) := by
        simp only [cleanupLoop, hr]
        rfl
      rw [hu, ihl _ _ _ _ k h2, findKey_eraseKey_ne s h1]

theorem cleanupLoop_sync_mem (ts : String) :
    ∀ (ids : List String) (s : SyncState) (fs : FS) (inv : List Path)
      (mv : List (Path × Path)) (k : String), (keys s).Nodup → k ∈ ids →
      findKey k (cleanupLoop ts ids s fs inv mv).1 = none := by
  intro ids
  induction ids with
  | nil =>
    intro s fs inv mv k _ hk
    exact absurd hk (List.not_mem_nil k)
  | cons id0 rest ihl =>
    intro s fs inv mv k hnd hk
    by_cases h2 : k ∈ rest
    · cases hr : findKey id0 s with
      | none =>
        have hu : cleanupLoop ts (id0 :: rest) s fs inv mv =
            cleanupLoop ts rest s fs inv mv := by
          simp only [cleanupLoop, hr]
        rw [hu]
        exact ihl s fs inv mv k hnd h2
      | some r0 =>
        have hu : cleanupLoop ts (id0 :: rest) s fs inv mv =
            cleanupLoop ts rest (eraseKey id0 s)
              (cleanup_extractions_for_file r0.relative_path
                (move_to_deleted ts ("notes" :: r0.relative_path) fs).1)
              (inv ++ [r0.relative_path])
              (mv ++ (move_to_deleted ts ("notes" :: r0.relative_path) fs).2) := by
          simp only [cleanupLoop, hr]
          rfl
        rw [hu]
        exact ihl _ _ _ _ k (keys_eraseKey_nodup id0 s hnd) h2
    · have h1 : k = id0 := by
        rcases List.mem_cons.mp hk with he | hm
        · exact he
        · exact absurd hm h2
      subst h1
      cases hr : findKey k s with
      | none =>
        have hu : cleanupLoop ts (k :: rest) s fs inv mv =
            cleanupLoop ts rest s fs inv mv := by
          simp only [cleanupLoop, hr]
        rw [hu, cleanupLoop_sync_not_mem ts rest s fs inv mv k h2]
        exact hr
      | some r0 =>
        have hu : cleanupLoop ts (k :: rest) s fs inv mv =
            cleanupLoop ts rest (eraseKey k s)
              (cleanup_extractions_for_file r0.relative_path
                (move_to_deleted ts ("notes" :: r0.relative_path) fs).1)
              (inv ++ [r0.relative_path])
              (mv ++ (move_to_deleted ts ("notes" :: r0.relative_path) fs).2) := by
          simp only [cleanupLoop, hr]
          rfl
        rw [hu, cleanupLoop_sync_not_mem ts rest _ _ _ _ k h2]
        exact findKey_eraseKey_self k s hnd

/-! ### Claim C9 -/

/-- Claim C9: after a run whose enumeration completes without error, the
keys of the persisted sync state are exactly the identifiers observed in
that run (the entries passing the listing filter): every observed entry
has a record — both branches write one — and reconciliation removes every
key not observed; the observed set itself equals the filtered listing. -/
theorem c9_state_keys_equal_observed (env : Env) (fuel : Nat) (now : String)
    (files : List DriveFile) (state0 : SyncState) (fs0 : FS)
    (h0 : (keys state0).Nodup) (id : String) :
    ((findKey id (sync_notes env fuel now files state0 fs0).sync).isSome ↔
      id ∈ goodIds files) ∧
    (id ∈ (sync_notes env fuel now files state0 fs0).current ↔
      id ∈ goodIds files) := by
  have hcur := processEntries_current_mem env fuel now files
    { sync := state0, current := [], fs := fs0, cache := [], invalidated := [] } id
  have hsome := processEntries_sync_isSome env fuel now files
    { sync := state0, current := [], fs := fs0, cache := [], invalidated := [] } id
  have hnd := processEntries_keys_nodup env fuel now files
    { sync := state0, current := [], fs := fs0, cache := [], invalidated := [] } h0
  have hsync_eq : (sync_notes env fuel now files state0 fs0).sync =
      (cleanupLoop now
        ((keys (processEntries env fuel now files
          { sync := state0, current := [], fs := fs0, cache := [],
            invalidated := [] }).1.sync).filter
          (fun k => !((processEntries env fuel now files
            { sync := state0, current := [], fs := fs0, cache := [],
              invalidated := [] }).1.current.contains k)))
        (processEntries env fuel now files
          { sync := state0, current := [], fs := fs0, cache := [],
            invalidated := [] }).1.sync
        (processEntries env fuel now files
          { sync := state0, current := [], fs := fs0, cache := [],
            invalidated := [] }).1.fs [] []).1 := rfl
  have hcur_eq : (sync_notes env fuel now files state0 fs0).current =
      (processEntries env fuel now files
        { sync := state0, current := [], fs := fs0, cache := [],
          invalidated := [] }).1.current := rfl
  generalize hPP : (processEntries env fuel now files
    { sync := state0, current := [], fs := fs0, cache := [],
      invalidated := [] }).1 = P at hsync_eq hcur_eq hcur hsome hnd
  rw [hsync_eq, hcur_eq]
  constructor
  · by_cases hobs : id ∈ goodIds files
    · have hidc : id ∈ P.current := hcur.mpr (Or.inl hobs)
      have hcont : P.current.contains id = true := List.elem_eq_true_of_mem hidc
      have hnotdel : id ∉ (keys P.sync).filter
          (fun k => !(P.current.contains k)) := by
        intro hmem
        have hp := List.of_mem_filter hmem
        rw [hcont] at hp
        simp at hp
      rw [cleanupLoop_sync_not_mem now _ P.sync P.fs [] [] id hnotdel]
      simp [hsome, hobs]
    · have hidc : id ∉ P.current := by
        intro hmem
        rcases hcur.mp hmem with h | h
        · exact hobs h
        · exact absurd h (List.not_mem_nil id)
      suffices h : findKey id (cleanupLoop now
          ((keys P.sync).filter (fun k => !(P.current.contains k)))
          P.sync P.fs [] []).1 = none by
        rw [h]
        simp [hobs]
      by_cases hdel : id ∈ (keys P.sync).filter
          (fun k => !(P.current.contains k))
      · exact cleanupLoop_sync_mem now _ P.sync P.fs [] [] id hnd hdel
      · rw [cleanupLoop_sync_not_mem now _ P.sync P.fs [] [] id hdel]
        cases hfk : findKey id P.sync with
        | none => rfl
        | some r =>
          exfalso
          have hisS : (findKey id P.sync).isSome := by simp [hfk]
          have hkeys : id ∈ keys P.sync :=
            (mem_keys_iff_findKey_isSome id P.sync).mpr hisS
          have hcont : P.current.contains id = false := by
            cases hcc : P.current.contains id with
            | false => rfl
            | true => exact absurd (List.mem_of_elem_eq_true hcc) hidc
          exact hdel (List.mem_filter.mpr ⟨hkeys, by simpa [hcont] using hidc⟩)
  · rw [hcur]
    simp

/-- Witness for C9: one observed entry, one stale identifier in the prior
state. -/
theorem c9_state_keys_equal_observed_witness :
    ((findKey "id1" (sync_notes testEnv 9 "T9" [sampleFile]
        [("old", sampleRecord)] []).sync).isSome ↔
      "id1" ∈ goodIds [sampleFile]) ∧
    ("id1" ∈ (sync_notes testEnv 9 "T9" [sampleFile]
        [("old", sampleRecord)] []).current ↔
      "id1" ∈ goodIds [sampleFile]) :=
  c9_state_keys_equal_observed testEnv 9 "T9" [sampleFile]
    [("old", sampleRecord)] [] (by decide) "id1"

/-! ### Second-run lemmas -/

theorem should_download_hash_match (env : Env) (fs : FS) (file_id : String)
    (file_size : Nat) (mtime : String) (st : SyncState) (folder : Path)
    (name : String) (r : SyncRecord) (c : Content) (h : String)
    (hfile : findKey (noteOutputPath folder name) fs = some c)
    (hrec : findKey file_id st = some r)
    (hmt : r.modified_time = mtime) (hsz : r.size = file_size)
    (hch : r.content_hash = some (some h)) (hh : env.contentHash c = some h) :
    should_download_file env fs file_id file_size mtime st folder name =
      (false, "File is up to date") := by
  simp [should_download_file, hfile, hrec, hmt, hsz, hch, get_content_hash, hh]

theorem noteOutputPath_eq (fp : Path) (name : String) :
    noteOutputPath fp name = "notes" :: relPathOf fp name := by
  unfold noteOutputPath relPathOf
  cases fp <;> simp

theorem cons_ne_of_tail {a : String} {x y : List String} (h : x ≠ y) :
    a :: x ≠ a :: y := by
  intro he
  injection he with _ h2
  exact h h2

theorem process_note_file_cache (env : Env) (fuel : Nat) (now : String)
    (file : DriveFile) (rs : RunState) :
    (process_note_file env fuel now file rs).1.cache =
      (get_folder_path env fuel file.parents rs.cache).2.1 := by
  cases hd : should_download_file env rs.fs file.id (file.size.getD 0)
      file.modifiedTime rs.sync (get_folder_path env fuel file.parents rs.cache).1
      file.name with
  | mk b reason =>
    cases b
    · rw [process_note_file_skip_eq env fuel now reason file rs
        (get_folder_path env fuel file.parents rs.cache).1
        (get_folder_path env fuel file.parents rs.cache).2.1
        (get_folder_path env fuel file.parents rs.cache).2.2 rfl hd]
    · rw [process_note_file_download_eq env fuel now reason file rs
        (get_folder_path env fuel file.parents rs.cache).1
        (get_folder_path env fuel file.parents rs.cache).2.1
        (get_folder_path env fuel file.parents rs.cache).2.2 rfl hd]

theorem relPathsFrom_cons_good (env : Env) (fuel : Nat) (f : DriveFile)
    (rest : List DriveFile) (cache : Cache) (hg : goodFile f = true) :
    relPathsFrom env fuel (f :: rest) cache =
      relPathOf (get_folder_path env fuel f.parents cache).1 f.name ::
        relPathsFrom env fuel rest
          (get_folder_path env fuel f.parents cache).2.1 := by
  simp only [relPathsFrom, hg, if_true]

theorem relPathsFrom_cons_bad (env : Env) (fuel : Nat) (f : DriveFile)
    (rest : List DriveFile) (cache : Cache) (hg : goodFile f = false) :
    relPathsFrom env fuel (f :: rest) cache = relPathsFrom env fuel rest cache := by
  simp only [relPathsFrom, hg, Bool.false_eq_true, if_false]

theorem processEntries_sync_other (env : Env) (fuel : Nat) (now : String) :
    ∀ (l : List DriveFile) (rs : RunState) (k : String), k ∉ goodIds l →
      findKey k (processEntries env fuel now l rs).1.sync =
        findKey k rs.sync := by
  intro l
  induction l with
  | nil =>
    intro rs k _
    rfl
  | cons f rest ihl =>
    intro rs k hk
    cases hg : goodFile f with
    | false =>
      rw [processEntries_cons_bad env fuel now f rest rs hg]
      exact ihl rs k (by rwa [goodIds_cons_bad f rest hg] at hk)
    | true =>
      rw [goodIds_cons_good f rest hg] at hk
      have h1 : k ≠ f.id := fun he => hk (he ▸ List.mem_cons_self f.id _)
      have h2 : k ∉ goodIds rest := fun hm => hk (List.mem_cons_of_mem _ hm)
      rw [processEntries_cons_good env fuel now f rest rs hg, ihl _ k h2,
          process_note_file_sync_other env fuel now f rs k h1]

theorem processEntries_fs_notes (env : Env) (fuel : Nat) (now : String) :
    ∀ (l : List DriveFile) (rs : RunState) (q : Path),
      (∀ rel ∈ relPathsFrom env fuel l rs.cache, rel ≠ q) →
      findKey ("notes" :: q) (processEntries env fuel now l rs).1.fs =
        findKey ("notes" :: q) rs.fs := by
  intro l
  induction l with
  | nil =>
    intro rs q _
    rfl
  | cons f rest ihl =>
    intro rs q hq
    cases hg : goodFile f with
    | false =>
      rw [processEntries_cons_bad env fuel now f rest rs hg]
      exact ihl rs q (by rwa [relPathsFrom_cons_bad env fuel f rest rs.cache hg] at hq)
    | true =>
      rw [relPathsFrom_cons_good env fuel f rest rs.cache hg] at hq
      have hq1 : relPathOf (get_folder_path env fuel f.parents rs.cache).1 f.name ≠ q :=
        hq _ (List.mem_cons_self _ _)
      have hq2 : ∀ rel ∈ relPathsFrom env fuel rest
          (get_folder_path env fuel f.parents rs.cache).2.1, rel ≠ q :=
        fun rel hm => hq rel (List.mem_cons_of_mem _ hm)
      rw [processEntries_cons_good env fuel now f rest rs hg]
      rw [ihl (process_note_file env fuel now f rs).1 q
        (by rwa [process_note_file_cache env fuel now f rs])]
      cases hd : should_download_file env rs.fs f.id (f.size.getD 0)
          f.modifiedTime rs.sync (get_folder_path env fuel f.parents rs.cache).1
          f.name with
      | mk b reason =>
        cases b
        · rw [process_note_file_skip_eq env fuel now reason f rs
            (get_folder_path env fuel f.parents rs.cache).1
            (get_folder_path env fuel f.parents rs.cache).2.1
            (get_folder_path env fuel f.parents rs.cache).2.2 rfl hd]
        · rw [process_note_file_download_eq env fuel now reason f rs
            (get_folder_path env fuel f.parents rs.cache).1
            (get_folder_path env fuel f.parents rs.cache).2.1
            (get_folder_path env fuel f.parents rs.cache).2.2 rfl hd]
          show findKey ("notes" :: q)
            (setKey (noteOutputPath (get_folder_path env fuel f.parents rs.cache).1
              f.name) (env.content f.id)
              (setKey ["tmp", f.id] (env.content f.id)
                (if (findKey f.id rs.sync).isSome then
                  (cleanup_extractions_for_file
                    (relPathOf (get_folder_path env fuel f.parents rs.cache).1 f.name)
                    rs.fs, rs.invalidated ++
                      [relPathOf (get_folder_path env fuel f.parents rs.cache).1 f.name])
                 else (rs.fs, rs.invalidated)).1)) =
            findKey ("notes" :: q) rs.fs
          rw [noteOutputPath_eq, findKey_setKey_ne _ _
            (cons_ne_of_tail (fun he => hq1 he.symm)),
            findKey_setKey_ne _ _ (ne_cons_of_head _ _ (by decide))]
          cases hs : (findKey f.id rs.sync).isSome
          · simp only [hs, Bool.false_eq_true, if_false]
          · simp only [hs, if_true]
            exact findKey_cleanup_extractions _ _ _
              (head_cons_ne "notes" "images" _ (by decide))
              (head_cons_ne "notes" "titles" _ (by decide))

theorem processEntries_cons_good_skip (env : Env) (fuel : Nat) (now : String)
    (f : DriveFile) (rest : List DriveFile) (rs : RunState)
    (hg : goodFile f = true)
    (hskip : (process_note_file env fuel now f rs).2 = false) :
    processEntries env fuel now (f :: rest) rs =
      ((processEntries env fuel now rest (process_note_file env fuel now f rs).1).1,
       (processEntries env fuel now rest (process_note_file env fuel now f rs).1).2.1,
       (processEntries env fuel now rest
         (process_note_file env fuel now f rs).1).2.2 + 1) := by
  simp only [processEntries, hg, if_true, hskip, Bool.false_eq_true, if_false]

theorem cleanup_noop (ts : String) (s : SyncState) (cur : List String) (fs : FS)
    (h : ∀ k ∈ keys s, cur.contains k = true) :
    cleanup_deleted_files ts s cur fs =
      { sync := s, fs := fs, invalidated := [], moved := [], count := 0 } := by
  have hf : (keys s).filter (fun k => !(cur.contains k)) = [] := by
    rw [List.filter_eq_nil_iff]
    intro k hk
    rw [h k hk]
    decide
  unfold cleanup_deleted_files
  rw [hf]
  rfl

theorem secondRun_skips (env : Env) (fuel : Nat) (now : String) :
    ∀ (l : List DriveFile) (S : SyncState) (F : FS) (cur : List String)
      (inv : List Path) (cache : Cache),
      secondRunReady env fuel S F l cache →
      (processEntries env fuel now l
        { sync := S, current := cur, fs := F, cache := cache,
          invalidated := inv }).1.sync = S ∧
      (processEntries env fuel now l
        { sync := S, current := cur, fs := F, cache := cache,
          invalidated := inv }).1.fs = F ∧
      (processEntries env fuel now l
        { sync := S, current := cur, fs := F, cache := cache,
          invalidated := inv }).2.1 = 0 := by
  intro l
  induction l with
  | nil =>
    intro S F cur inv cache _
    exact ⟨rfl, rfl, rfl⟩
  | cons f rest ihl =>
    intro S F cur inv cache hready
    cases hg : goodFile f with
    | false =>
      have hr : secondRunReady env fuel S F rest cache := by
        have h1 := hready
        simp only [secondRunReady, hg, Bool.false_eq_true, if_false] at h1
        exact h1
      rw [processEntries_cons_bad env fuel now f rest _ hg]
      exact ihl S F cur inv cache hr
    | true =>
      have hready' := hready
      simp only [secondRunReady, hg, if_true] at hready'
      obtain ⟨⟨r, h, c, hrec, hmt, hsz, hch, hfold, hrel, hhash, hname, hfile,
        hcH⟩, htail⟩ := hready'
      have hd : should_download_file env F f.id (f.size.getD 0) f.modifiedTime S
          (get_folder_path env fuel f.parents cache).1 f.name =
          (false, "File is up to date") :=
        should_download_hash_match env F f.id (f.size.getD 0) f.modifiedTime S
          (get_folder_path env fuel f.parents cache).1 f.name r c h hfile hrec
          hmt hsz hch hcH
      have hskip_eq := process_note_file_skip_eq env fuel now "File is up to date"
        f { sync := S, current := cur, fs := F, cache := cache,
            invalidated := inv }
        (get_folder_path env fuel f.parents cache).1
        (get_folder_path env fuel f.parents cache).2.1
        (get_folder_path env fuel f.parents cache).2.2 rfl hd
      have hrec_eq : skipRecord env now f
          (get_folder_path env fuel f.parents cache).1 (findKey f.id S) = r := by
        rw [hrec]
        unfold skipRecord
        cases r with
        | mk rh rch rn rsz rmt rfp rrp rls => simp_all
      have hstep : process_note_file env fuel now f
          { sync := S, current := cur, fs := F, cache := cache,
            invalidated := inv } =
          ({ sync := S,
             current := if cur.contains f.id then cur else cur ++ [f.id],
             fs := F, cache := (get_folder_path env fuel f.parents cache).2.1,
             invalidated := inv }, false) := by
        rw [hskip_eq]
        simp only []
        rw [hrec_eq, setKey_of_findKey_eq hrec]
      have hskipflag : (process_note_file env fuel now f
          { sync := S, current := cur, fs := F, cache := cache,
            invalidated := inv }).2 = false := by
        rw [hstep]
      rw [processEntries_cons_good_skip env fuel now f rest _ hg hskipflag]
      have hstate : (process_note_file env fuel now f
          { sync := S, current := cur, fs := F, cache := cache,
            invalidated := inv }).1 =
          { sync := S,
            current := if cur.contains f.id then cur else cur ++ [f.id],
            fs := F, cache := (get_folder_path env fuel f.parents cache).2.1,
            invalidated := inv } := by
        rw [hstep]
      rw [hstate]
      exact ihl S F _ inv _ htail

theorem firstRun_ready (env : Env) (fuel : Nat) (now : String) :
    ∀ (l : List DriveFile) (rs : RunState),
      (goodIds l).Nodup →
      (∀ id ∈ goodIds l, findKey id rs.sync = none) →
      (relPathsFrom env fuel l rs.cache).Nodup →
      (∀ rel ∈ relPathsFrom env fuel l rs.cache,
        findKey ("notes" :: rel) rs.fs = none) →
      (∀ f ∈ l.filter goodFile, (env.contentHash (env.content f.id)).isSome) →
      secondRunReady env fuel (processEntries env fuel now l rs).1.sync
        (processEntries env fuel now l rs).1.fs l rs.cache := by
  intro l
  induction l with
  | nil =>
    intro rs _ _ _ _ _
    trivial
  | cons f rest ihl =>
    intro rs hnd hfresh hpnd hffresh hhash
    cases hg : goodFile f with
    | false =>
      have hfil : (f :: rest).filter goodFile = rest.filter goodFile := by
        simp [List.filter_cons, hg]
      rw [processEntries_cons_bad env fuel now f rest rs hg]
      have hrec := ihl rs (by rwa [goodIds_cons_bad f rest hg] at hnd)
        (by rw [goodIds_cons_bad f rest hg] at hfresh; exact hfresh)
        (by rwa [relPathsFrom_cons_bad env fuel f rest rs.cache hg] at hpnd)
        (by rw [relPathsFrom_cons_bad env fuel f rest rs.cache hg] at hffresh
            exact hffresh)
        (by rw [hfil] at hhash; exact hhash)
      simp only [secondRunReady, hg, Bool.false_eq_true, if_false]
      exact hrec
    | true =>
      rw [goodIds_cons_good f rest hg] at hnd hfresh
      rw [relPathsFrom_cons_good env fuel f rest rs.cache hg] at hpnd hffresh
      have hfil : (f :: rest).filter goodFile = f :: rest.filter goodFile := by
        simp [List.filter_cons, hg]
      rw [hfil] at hhash
      have hndid : f.id ∉ goodIds rest := (List.nodup_cons.mp hnd).1
      have hndr : (goodIds rest).Nodup := (List.nodup_cons.mp hnd).2
      have hrelnd : relPathOf (get_folder_path env fuel f.parents rs.cache).1 f.name ∉
          relPathsFrom env fuel rest
            (get_folder_path env fuel f.parents rs.cache).2.1 :=
        (List.nodup_cons.mp hpnd).1
      have hpndr := (List.nodup_cons.mp hpnd).2
      have hflocal : findKey (noteOutputPath
          (get_folder_path env fuel f.parents rs.cache).1 f.name) rs.fs = none := by
        rw [noteOutputPath_eq]
        exact hffresh _ (List.mem_cons_self _ _)
      have hd := should_download_missing env rs.fs f.id (f.size.getD 0)
        f.modifiedTime rs.sync (get_folder_path env fuel f.parents rs.cache).1
        f.name hflocal
      have hdl_eq := process_note_file_download_eq env fuel now
        "File does not exist locally" f rs
        (get_folder_path env fuel f.parents rs.cache).1
        (get_folder_path env fuel f.parents rs.cache).2.1
        (get_folder_path env fuel f.parents rs.cache).2.2 rfl hd
      have hsyncnone : findKey f.id rs.sync = none :=
        hfresh f.id (List.mem_cons_self _ _)
      have hstate : (process_note_file env fuel now f rs).1 =
          { sync := setKey f.id (downloadRecord env now f
              (get_folder_path env fuel f.parents rs.cache).1
              (setKey (noteOutputPath
                  (get_folder_path env fuel f.parents rs.cache).1 f.name)
                (env.content f.id)
                (setKey ["tmp", f.id] (env.content f.id) rs.fs))) rs.sync,
            current := if rs.current.contains f.id then rs.current
              else rs.current ++ [f.id],
            fs := setKey (noteOutputPath
                (get_folder_path env fuel f.parents rs.cache).1 f.name)
              (env.content f.id)
              (setKey ["tmp", f.id] (env.content f.id) rs.fs),
            cache := (get_folder_path env fuel f.parents rs.cache).2.1,
            invalidated := rs.invalidated } := by
        rw [hdl_eq]
        simp only [hsyncnone, Option.isSome_none, Bool.false_eq_true, if_false]
      obtain ⟨h, hh⟩ := Option.isSome_iff_exists.mp
        (hhash f (List.mem_cons_self _ _))
      have hchash : get_content_hash env
          (setKey (noteOutputPath
              (get_folder_path env fuel f.parents rs.cache).1 f.name)
            (env.content f.id)
            (setKey ["tmp", f.id] (env.content f.id) rs.fs))
          (noteOutputPath (get_folder_path env fuel f.parents rs.cache).1
            f.name) = some h := by
        rw [get_content_hash_setKey_self]
        exact hh
      rw [processEntries_cons_good env fuel now f rest rs hg]
      simp only [secondRunReady, hg, if_true]
      constructor
      · refine ⟨downloadRecord env now f
          (get_folder_path env fuel f.parents rs.cache).1
          (setKey (noteOutputPath
              (get_folder_path env fuel f.parents rs.cache).1 f.name)
            (env.content f.id)
            (setKey ["tmp", f.id] (env.content f.id) rs.fs)),
          h, env.content f.id, ?_, rfl, rfl, ?_, rfl, rfl, rfl, rfl, ?_, hh⟩
        · rw [processEntries_sync_other env fuel now rest
            (process_note_file env fuel now f rs).1 f.id hndid, hstate]
          exact findKey_setKey_self _ _ _
        · show (downloadRecord env now f _ _).content_hash = some (some h)
          unfold downloadRecord
          rw [hchash]
        · rw [noteOutputPath_eq]
          rw [processEntries_fs_notes env fuel now rest
            (process_note_file env fuel now f rs).1
            (relPathOf (get_folder_path env fuel f.parents rs.cache).1 f.name)
            (by rw [process_note_file_cache env fuel now f rs]
                intro rel hm heq
                exact hrelnd (heq ▸ hm))]
          rw [hstate]
          show findKey ("notes" :: relPathOf
              (get_folder_path env fuel f.parents rs.cache).1 f.name)
            (setKey (noteOutputPath
                (get_folder_path env fuel f.parents rs.cache).1 f.name)
              (env.content f.id)
              (setKey ["tmp", f.id] (env.content f.id) rs.fs)) =
            some (env.content f.id)
          rw [← noteOutputPath_eq]
          exact findKey_setKey_self _ _ _
      · rw [hstate]
        have hready := ihl
          { sync := setKey f.id (downloadRecord env now f
              (get_folder_path env fuel f.parents rs.cache).1
              (setKey (noteOutputPath
                  (get_folder_path env fuel f.parents rs.cache).1 f.name)
                (env.content f.id)
                (setKey ["tmp", f.id] (env.content f.id) rs.fs))) rs.sync,
            current := if rs.current.contains f.id then rs.current
              else rs.current ++ [f.id],
            fs := setKey (noteOutputPath
                (get_folder_path env fuel f.parents rs.cache).1 f.name)
              (env.content f.id)
              (setKey ["tmp", f.id] (env.content f.id) rs.fs),
            cache := (get_folder_path env fuel f.parents rs.cache).2.1,
            invalidated := rs.invalidated }
          hndr
          (by intro id hid
              have hne : id ≠ f.id := fun he => hndid (he ▸ hid)
              show findKey id (setKey f.id _ rs.sync) = none
              rw [findKey_setKey_ne _ _ hne]
              exact hfresh id (List.mem_cons_of_mem _ hid))
          hpndr
          (by intro rel hm
              have hne : rel ≠ relPathOf
                  (get_folder_path env fuel f.parents rs.cache).1 f.name :=
                fun he => hrelnd (he ▸ hm)
              show findKey ("notes" :: rel) (setKey _ _ (setKey _ _ rs.fs)) = none
              rw [noteOutputPath_eq, findKey_setKey_ne _ _ (cons_ne_of_tail hne),
                findKey_setKey_ne _ _ (ne_cons_of_head _ _ (by decide))]
              exact hffresh rel (List.mem_cons_of_mem _ hm))
          (by intro x hx
              exact hhash x (List.mem_cons_of_mem _ hx))
        exact hready

/-! ### Claim C3 -/

/-- Claim C3 counterexample: after a first run at clock T1, an identical
second run at clock T2 leaves the entry record with last_synced = T1 — the
skip branch preserves the stored timestamp instead of refreshing it, so
the claimed "refreshed last_synced values" do not occur. -/
theorem c3_last_synced_not_refreshed_counterexample :
    (findKey "id1" (sync_notes testEnv 9 "T2" [sampleFile]
        (sync_notes testEnv 9 "T1" [sampleFile] [] []).sync
        (sync_notes testEnv 9 "T1" [sampleFile] [] []).fs).sync).map
      SyncRecord.last_synced = some "T1" ∧
    ("T1" : String) ≠ "T2" := by
  constructor
  · decide
  · decide

/-- Claim C3 amended: two consecutive runs against an identical remote
collection, starting from an empty state and mirror, are idempotent — the
second run performs zero downloads, and the persisted state and mirror are
completely unchanged, including last_synced (the skip branch preserves the
stored timestamp, using the clock only when none exists).  Hypotheses: the
listing identifiers and the resolved relative paths are pairwise distinct,
and content hashing succeeds on the fetched bytes. -/
theorem c3_second_run_idempotent (env : Env) (fuel : Nat) (t1 t2 : String)
    (files : List DriveFile)
    (hids : (goodIds files).Nodup)
    (hpaths : (relPathsFrom env fuel files []).Nodup)
    (hhash : ∀ f ∈ files.filter goodFile,
      (env.contentHash (env.content f.id)).isSome) :
    (sync_notes env fuel t2 files (sync_notes env fuel t1 files [] []).sync
        (sync_notes env fuel t1 files [] []).fs).processed = 0 ∧
    (sync_notes env fuel t2 files (sync_notes env fuel t1 files [] []).sync
        (sync_notes env fuel t1 files [] []).fs).sync =
      (sync_notes env fuel t1 files [] []).sync ∧
    (sync_notes env fuel t2 files (sync_notes env fuel t1 files [] []).sync
        (sync_notes env fuel t1 files [] []).fs).fs =
      (sync_notes env fuel t1 files [] []).fs := by
  have hready := firstRun_ready env fuel t1 files
    { sync := [], current := [], fs := [], cache := [], invalidated := [] }
    hids (fun id _ => rfl) hpaths (fun rel _ => rfl) hhash
  have hkeys1 : ∀ k ∈ keys (processEntries env fuel t1 files
      { sync := [], current := [], fs := [], cache := [],
        invalidated := [] }).1.sync,
      ((processEntries env fuel t1 files
        { sync := [], current := [], fs := [], cache := [],
          invalidated := [] }).1.current).contains k = true := by
    intro k hk
    have hs := (mem_keys_iff_findKey_isSome k _).mp hk
    have hgood : k ∈ goodIds files := by
      rcases (processEntries_sync_isSome env fuel t1 files _ k).mp hs with h | h
      · exact h
      · exact absurd h (by simp [findKey])
    exact List.elem_eq_true_of_mem
      ((processEntries_current_mem env fuel t1 files _ k).mpr (Or.inl hgood))
  have hclean1 := cleanup_noop t1
    (processEntries env fuel t1 files
      { sync := [], current := [], fs := [], cache := [],
        invalidated := [] }).1.sync
    (processEntries env fuel t1 files
      { sync := [], current := [], fs := [], cache := [],
        invalidated := [] }).1.current
    (processEntries env fuel t1 files
      { sync := [], current := [], fs := [], cache := [],
        invalidated := [] }).1.fs hkeys1
  have hrun1_sync : (sync_notes env fuel t1 files [] []).sync =
      (processEntries env fuel t1 files
        { sync := [], current := [], fs := [], cache := [],
          invalidated := [] }).1.sync := by
    show (cleanup_deleted_files t1
      (processEntries env fuel t1 files
        { sync := [], current := [], fs := [], cache := [],
          invalidated := [] }).1.sync
      (processEntries env fuel t1 files
        { sync := [], current := [], fs := [], cache := [],
          invalidated := [] }).1.current
      (processEntries env fuel t1 files
        { sync := [], current := [], fs := [], cache := [],
          invalidated := [] }).1.fs).sync = _
    rw [hclean1]
  have hrun1_fs : (sync_notes env fuel t1 files [] []).fs =
      (processEntries env fuel t1 files
        { sync := [], current := [], fs := [], cache := [],
          invalidated := [] }).1.fs := by
    show (cleanup_deleted_files t1
      (processEntries env fuel t1 files
        { sync := [], current := [], fs := [], cache := [],
          invalidated := [] }).1.sync
      (processEntries env fuel t1 files
        { sync := [], current := [], fs := [], cache := [],
          invalidated := [] }).1.current
      (processEntries env fuel t1 files
        { sync := [], current := [], fs := [], cache := [],
          invalidated := [] }).1.fs).fs = _
    rw [hclean1]
  obtain ⟨hsk_sync, hsk_fs, hsk_count⟩ := secondRun_skips env fuel t2 files
    (processEntries env fuel t1 files
      { sync := [], current := [], fs := [], cache := [],
        invalidated := [] }).1.sync
    (processEntries env fuel t1 files
      { sync := [], current := [], fs := [], cache := [],
        invalidated := [] }).1.fs [] [] [] hready
  rw [hrun1_sync, hrun1_fs]
  have hkeys2 : ∀ k ∈ keys (processEntries env fuel t2 files
      { sync := (processEntries env fuel t1 files
          { sync := [], current := [], fs := [], cache := [],
            invalidated := [] }).1.sync,
        current := [],
        fs := (processEntries env fuel t1 files
          { sync := [], current := [], fs := [], cache := [],
            invalidated := [] }).1.fs,
        cache := [], invalidated := [] }).1.sync,
      ((processEntries env fuel t2 files
        { sync := (processEntries env fuel t1 files
            { sync := [], current := [], fs := [], cache := [],
              invalidated := [] }).1.sync,
          current := [],
          fs := (processEntries env fuel t1 files
            { sync := [], current := [], fs := [], cache := [],
              invalidated := [] }).1.fs,
          cache := [], invalidated := [] }).1.current).contains k = true := by
    intro k hk
    rw [hsk_sync] at hk
    have hs := (mem_keys_iff_findKey_isSome k _).mp hk
    have hgood : k ∈ goodIds files := by
      rcases (processEntries_sync_isSome env fuel t1 files _ k).mp hs with h | h
      · exact h
      · exact absurd h (by simp [findKey])
    exact List.elem_eq_true_of_mem
      ((processEntries_current_mem env fuel t2 files _ k).mpr (Or.inl hgood))
  have hclean2 := cleanup_noop t2
    (processEntries env fuel t2 files
      { sync := (processEntries env fuel t1 files
          { sync := [], current := [], fs := [], cache := [],
            invalidated := [] }).1.sync,
        current := [],
        fs := (processEntries env fuel t1 files
          { sync := [], current := [], fs := [], cache := [],
            invalidated := [] }).1.fs,
        cache := [], invalidated := [] }).1.sync
    (processEntries env fuel t2 files
      { sync := (processEntries env fuel t1 files
          { sync := [], current := [], fs := [], cache := [],
            invalidated := [] }).1.sync,
        current := [],
        fs := (processEntries env fuel t1 files
          { sync := [], current := [], fs := [], cache := [],
            invalidated := [] }).1.fs,
        cache := [], invalidated := [] }).1.current
    (processEntries env fuel t2 files
      { sync := (processEntries env fuel t1 files
          { sync := [], current := [], fs := [], cache := [],
            invalidated := [] }).1.sync,
        current := [],
        fs := (processEntries env fuel t1 files
          { sync := [], current := [], fs := [], cache := [],
            invalidated := [] }).1.fs,
        cache := [], invalidated := [] }).1.fs hkeys2
  refine ⟨?_, ?_, ?_⟩
  · show (processEntries env fuel t2 files
      { sync := (processEntries env fuel t1 files
          { sync := [], current := [], fs := [], cache := [],
            invalidated := [] }).1.sync,
        current := [],
        fs := (processEntries env fuel t1 files
          { sync := [], current := [], fs := [], cache := [],
            invalidated := [] }).1.fs,
        cache := [], invalidated := [] }).2.1 = 0
    exact hsk_count
  · show (cleanup_deleted_files t2
      (processEntries env fuel t2 files
        { sync := (processEntries env fuel t1 files
            { sync := [], current := [], fs := [], cache := [],
              invalidated := [] }).1.sync,
          current := [],
          fs := (processEntries env fuel t1 files
            { sync := [], current := [], fs := [], cache := [],
              invalidated := [] }).1.fs,
          cache := [], invalidated := [] }).1.sync
      (processEntries env fuel t2 files
        { sync := (processEntries env fuel t1 files
            { sync := [], current := [], fs := [], cache := [],
              invalidated := [] }).1.sync,
          current := [],
          fs := (processEntries env fuel t1 files
            { sync := [], current := [], fs := [], cache := [],
              invalidated := [] }).1.fs,
          cache := [], invalidated := [] }).1.current
      (processEntries env fuel t2 files
        { sync := (processEntries env fuel t1 files
            { sync := [], current := [], fs := [], cache := [],
              invalidated := [] }).1.sync,
          current := [],
          fs := (processEntries env fuel t1 files
            { sync := [], current := [], fs := [], cache := [],
              invalidated := [] }).1.fs,
          cache := [], invalidated := [] }).1.fs).sync =
      (processEntries env fuel t1 files
        { sync := [], current := [], fs := [], cache := [],
          invalidated := [] }).1.sync
    rw [hclean2]
    exact hsk_sync
  · show (cleanup_deleted_files t2
      (processEntries env fuel t2 files
        { sync := (processEntries env fuel t1 files
            { sync := [], current := [], fs := [], cache := [],
              invalidated := [] }).1.sync,
          current := [],
          fs := (processEntries env fuel t1 files
            { sync := [], current := [], fs := [], cache := [],
              invalidated := [] }).1.fs,
          cache := [], invalidated := [] }).1.sync
      (processEntries env fuel t2 files
        { sync := (processEntries env fuel t1 files
            { sync := [], current := [], fs := [], cache := [],
              invalidated := [] }).1.sync,
          current := [],
          fs := (processEntries env fuel t1 files
            { sync := [], current := [], fs := [], cache := [],
              invalidated := [] }).1.fs,
          cache := [], invalidated := [] }).1.current
      (processEntries env fuel t2 files
        { sync := (processEntries env fuel t1 files
            { sync := [], current := [], fs := [], cache := [],
              invalidated := [] }).1.sync,
          current := [],
          fs := (processEntries env fuel t1 files
            { sync := [], current := [], fs := [], cache := [],
              invalidated := [] }).1.fs,
          cache := [], invalidated := [] }).1.fs).fs =
      (processEntries env fuel t1 files
        { sync := [], current := [], fs := [], cache := [],
          invalidated := [] }).1.fs
    rw [hclean2]
    exact hsk_fs

/-- Witness for C3 amended: the one-entry listing, run twice. -/
theorem c3_second_run_idempotent_witness :
    (sync_notes testEnv 9 "T2" [sampleFile]
        (sync_notes testEnv 9 "T1" [sampleFile] [] []).sync
        (sync_notes testEnv 9 "T1" [sampleFile] [] []).fs).processed = 0 ∧
    (sync_notes testEnv 9 "T2" [sampleFile]
        (sync_notes testEnv 9 "T1" [sampleFile] [] []).sync
        (sync_notes testEnv 9 "T1" [sampleFile] [] []).fs).sync =
      (sync_notes testEnv 9 "T1" [sampleFile] [] []).sync ∧
    (sync_notes testEnv 9 "T2" [sampleFile]
        (sync_notes testEnv 9 "T1" [sampleFile] [] []).sync
        (sync_notes testEnv 9 "T1" [sampleFile] [] []).fs).fs =
      (sync_notes testEnv 9 "T1" [sampleFile] [] []).fs :=
  c3_second_run_idempotent testEnv 9 "T1" "T2" [sampleFile]
    (by decide) (by decide) (by decide)

end SupernoteSync
